import Mathlib

/-!
Verification development for the stream-multiplexing and correlation core of
`ctapipe_io_zfits` (files `multifile.py` and `dl0.py`).

The Python code is shallowly embedded: mutable objects become explicit state
records, Python exceptions become explicit error values (`PyErr`), and the
`queue.PriorityQueue` used by `MultiFiles` is embedded through the CPython
`heapq` algorithms it delegates to (`heappush` / `heappop` with `_siftdown` /
`_siftup`), implemented on `List` with explicit fuel for the `while` loops
(the fuel arguments are instantiated with values that are provably larger
than the number of loop iterations, so the embedded functions compute the
same results as the unbounded loops).
-/

set_option maxHeartbeats 1000000

namespace CtapipeZfits

/-- A telescope data record: an opaque payload plus an `event_id` used as the
ordering and matching key. -/
structure Rec where
  event_id : Nat
  payload : Nat
deriving DecidableEq, Repr

/-- `multifile.py` lines 19-25: `@dataclass(order=True) class NextEvent` with
fields `priority : int`, `event : Any = field(compare=False)`,
`data_source : str = field(compare=False)`.  Because `event` and
`data_source` carry `compare=False`, generated comparisons use `priority`
only.  Data sources are identified by their discovery index (a `Nat`). -/
structure NextEvent where
  priority : Nat
  event : Rec
  data_source : Nat
deriving DecidableEq, Repr

/-- The `<` comparison of the `NextEvent` dataclass: only `priority` takes
part in comparisons. -/
def NextEvent.ltb (a b : NextEvent) : Bool := a.priority < b.priority

/-- Python exceptions that the modelled code raises or catches. -/
inductive PyErr
  | stopIteration
  | fileNotFoundError
  | valueError
  | keyError
deriving DecidableEq, Repr

deriving instance DecidableEq for Except

/-! ### CPython `heapq`

`queue.PriorityQueue.put_nowait` and `.get_nowait` call `heapq.heappush` and
`heapq.heappop` on the underlying list.  The functions below transcribe
CPython's `heapq._siftdown`, `heapq._siftup`, `heappush` and `heappop`.
`List.getD`/`List.set` stand for Python list indexing and item assignment;
all positions touched at runtime are in range, so the `getD` default is never
observable. -/

/-- Loop body of CPython `heapq._siftdown(heap, startpos, pos)` after
`newitem = heap[pos]` has been read: while `pos > startpos`, compare
`newitem` with its parent, moving the parent down, and finally store
`newitem` at the hole.  `fuel` bounds the iteration count; `fuel = pos`
always suffices because `pos` strictly decreases. -/
def siftdownAux (ltb : α → α → Bool) (dflt : α) (startpos : Nat) (newitem : α) :
    Nat → List α → Nat → List α
  | 0, heap, pos => heap.set pos newitem
  | fuel + 1, heap, pos =>
    if startpos < pos then
      let parentpos := (pos - 1) / 2
      let parent := heap.getD parentpos dflt
      if ltb newitem parent then
        siftdownAux ltb dflt startpos newitem fuel (heap.set pos parent) parentpos
      else
        heap.set pos newitem
    else
      heap.set pos newitem

/-- CPython `heapq._siftdown(heap, startpos, pos)`. -/
def siftdown (ltb : α → α → Bool) (dflt : α) (heap : List α) (startpos pos : Nat) :
    List α :=
  siftdownAux ltb dflt startpos (heap.getD pos dflt) pos heap pos

/-- CPython `heapq.heappush(heap, item)`: append, then sift down from the
last position. -/
def heappush (ltb : α → α → Bool) (dflt : α) (heap : List α) (item : α) : List α :=
  siftdown ltb dflt (heap ++ [item]) 0 heap.length

/-- Child selection inside the loop of CPython `heapq._siftup`:
`childpos = 2*pos + 1`, `rightpos = childpos + 1`, and
`if rightpos < endpos and not heap[childpos] < heap[rightpos]: childpos =
rightpos`. -/
def siftupChild (ltb : α → α → Bool) (dflt : α) (endpos : Nat) (heap : List α)
    (pos : Nat) : Nat :=
  if 2 * pos + 1 + 1 < endpos
      && !(ltb (heap.getD (2 * pos + 1) dflt) (heap.getD (2 * pos + 1 + 1) dflt)) then
    2 * pos + 1 + 1
  else
    2 * pos + 1

/-- Loop body of CPython `heapq._siftup(heap, pos)` before the trailing
`_siftdown` call: bubble the hole at `pos` down to a leaf, always moving the
smaller child (`siftupChild`) up.  Returns the final heap contents and the
final hole position.  `fuel = endpos` always suffices because `pos` strictly
increases and stays below `endpos`. -/
def siftupAux (ltb : α → α → Bool) (dflt : α) (endpos : Nat) :
    Nat → List α → Nat → List α × Nat
  | 0, heap, pos => (heap, pos)
  | fuel + 1, heap, pos =>
    if 2 * pos + 1 < endpos then
      siftupAux ltb dflt endpos fuel
        (heap.set pos (heap.getD (siftupChild ltb dflt endpos heap pos) dflt))
        (siftupChild ltb dflt endpos heap pos)
    else
      (heap, pos)

/-- CPython `heapq._siftup(heap, pos)`: bubble the hole down to a leaf, store
`newitem` there, then `_siftdown(heap, startpos, pos)`. -/
def siftup (ltb : α → α → Bool) (dflt : α) (heap : List α) (pos : Nat) : List α :=
  let endpos := heap.length
  let newitem := heap.getD pos dflt
  let res := siftupAux ltb dflt endpos endpos heap pos
  siftdown ltb dflt (res.1.set res.2 newitem) pos res.2

/-- CPython `heapq.heappop(heap)`: pop the last element; if the heap is still
non-empty, the root is the returned item and the popped last element is sifted
down from the root.  An empty heap raises `IndexError`, which
`queue.PriorityQueue` never triggers (it checks emptiness first); the empty
case is `none` here. -/
def heappop (ltb : α → α → Bool) (dflt : α) (heap : List α) : Option (α × List α) :=
  match heap.getLast? with
  | none => none
  | some lastelt =>
    let rest := heap.dropLast
    match rest with
    | [] => some (lastelt, [])
    | r0 :: _ => some (r0, siftup ltb dflt (rest.set 0 lastelt) 0)

/-- Default `NextEvent` used to instantiate the (never observable) list
indexing default. -/
def dfltNE : NextEvent := ⟨0, ⟨0, 0⟩, 0⟩

/-- Index of the parent of heap node `j` in the array layout used by
`heapq`. -/
def Par (j : Nat) : Nat := (j - 1) / 2

/-- The binary-heap invariant of a `heapq` list under the `NextEvent`
comparison (priorities only): every node is at least its parent. -/
def IsHeap (l : List NextEvent) : Prop :=
  ∀ j < l.length, 0 < j →
    (l.getD (Par j) dfltNE).priority ≤ (l.getD j dfltNE).priority

instance (l : List NextEvent) : Decidable (IsHeap l) := by
  unfold IsHeap
  infer_instance

/-! ### Python `dict` as an insertion-ordered association list -/

/-- `d[k]` lookup returning `none` instead of raising `KeyError`. -/
def dictGet [DecidableEq κ] (d : List (κ × β)) (k : κ) : Option β :=
  (d.find? fun p => p.1 = k).map (·.2)

/-- `d.pop(k)` when `k` is present: remove the entry. -/
def dictRemove [DecidableEq κ] (d : List (κ × β)) (k : κ) : List (κ × β) :=
  d.eraseP fun p => decide (p.1 = k)

/-- `d[k] = v`: replace in place if present, else append (Python dicts keep
insertion order). -/
def dictSet [DecidableEq κ] (d : List (κ × β)) (k : κ) (v : β) : List (κ × β) :=
  if d.any (fun p => p.1 = k) then
    d.map fun p => if p.1 = k then (k, v) else p
  else
    d ++ [(k, v)]

/-! ### `MultiFiles` (multifile.py lines 125-307)

Data sources are identified by their discovery index `0, ..., k-1` (the code
derives a sorted list of paths and a set of data-source names from a
filesystem glob).  The filesystem is abstracted as
`chunks : data_source → chunk index → Option (contents)`: `chunks ds i = some rs`
means the glob for chunk `i` of source `ds` finds a file whose `Events` table
holds the records `rs` (when several files match, the code deterministically
keeps the lexicographically last one; `chunks` returns that file's contents),
and `none` means the glob finds nothing, so `sorted(...)[-1]` raises
`IndexError` and the code converts it to `FileNotFoundError`. -/

/-- The mutable state of a `MultiFiles` object together with the OS-level
bookkeeping of open file handles.  `open_files` is the `_open_files` dict
(data source ↦ handle serial); `os_open` records which handles are currently
open at the OS level (`File(...)` appends a fresh serial, `.close()` removes
it); `events_tables` holds the not-yet-consumed tail of each source's
current `Events` table; `events` is the list underlying the
`PriorityQueue`. -/
structure MFState where
  chunks : Nat → Int → Option (List Rec)
  all_chunks : Bool
  current_chunk : Nat → Int
  open_files : List (Nat × Nat)
  os_open : List (Nat × Nat)
  next_handle : Nat
  events_tables : Nat → List Rec
  events : List NextEvent

/-- `File.close()` on the handle with the given serial: the handle stops
being open at the OS level.  Closing an already-closed handle is a no-op of
the model (the underlying library is assumed not to raise, per its
interface). -/
def fileClose (st : MFState) (serial : Nat) : MFState :=
  { st with os_open := st.os_open.filter fun p => p.2 ≠ serial }

/-- `MultiFiles._load_next_chunk(data_source)` (lines 220-268): close the
currently open file of that source if any, advance `_current_chunk`, glob for
the next chunk (no match → `FileNotFoundError`), open the file, install its
`Events` table and push the table's first event (an empty table makes
`next(events_table)` raise `StopIteration`, which this method does not
catch).  The returned `Option PyErr` is the exception escaping the call; the
state mutations performed before the raise are kept, as in Python. -/
def load_next_chunk (st : MFState) (ds : Nat) : MFState × Option PyErr :=
  let st :=
    match dictGet st.open_files ds with
    | some serial =>
      let st := fileClose st serial
      { st with open_files := dictRemove st.open_files ds }
    | none => st
  let chunk := st.current_chunk ds + 1
  let st := { st with current_chunk := Function.update st.current_chunk ds chunk }
  match st.chunks ds chunk with
  | none => (st, some .fileNotFoundError)
  | some recs =>
    let serial := st.next_handle
    let st :=
      { st with
        next_handle := serial + 1
        os_open := st.os_open ++ [(ds, serial)]
        open_files := dictSet st.open_files ds serial }
    match recs with
    | [] => ({ st with events_tables := Function.update st.events_tables ds [] },
        some .stopIteration)
    | e :: rest =>
      ({ st with
          events_tables := Function.update st.events_tables ds rest
          events := heappush NextEvent.ltb dfltNE st.events ⟨e.event_id, e, ds⟩ },
        none)

/-- One iteration of the seeding loop of `MultiFiles.__init__`: run
`_load_next_chunk` for the next data source unless an exception has already
escaped the loop. -/
def initStep (acc : MFState × Option PyErr) (ds : Nat) : MFState × Option PyErr :=
  match acc with
  | (st, none) => load_next_chunk st ds
  | (st, some e) => (st, some e)

/-- `MultiFiles.__init__` (lines 155-213) restricted to the state relevant
here: `k` data sources are discovered (an empty glob raises `ValueError`),
`_current_chunk` starts at `file_info.chunk - 1` for every source, and
`_load_next_chunk` runs once per source; an exception escaping that loop
escapes the constructor. -/
def mfInit (k : Nat) (chunks : Nat → Int → Option (List Rec)) (all_chunks : Bool)
    (first_chunk : Int) : MFState × Option PyErr :=
  let st0 : MFState :=
    { chunks := chunks
      all_chunks := all_chunks
      current_chunk := fun _ => first_chunk - 1
      open_files := []
      os_open := []
      next_handle := 0
      events_tables := fun _ => []
      events := [] }
  if k = 0 then
    (st0, some .valueError)
  else
    (List.range k).foldl initStep (st0, none)

/-- `MultiFiles.__next__` (lines 284-307).  The leading
`if not self._events: raise StopIteration` is dead code (`PriorityQueue`
defines neither `__bool__` nor `__len__`, so the object is always truthy);
exhaustion is signalled by `get_nowait` raising `Empty`, converted to
`StopIteration`.  After popping, the next record of the popped source is
pushed back; a drained table triggers `_load_next_chunk` when `all_chunks`
is set, with `FileNotFoundError` swallowed (`except FileNotFoundError:
pass`) and any other exception escaping. -/
def mfNext (st : MFState) : MFState × Except PyErr Rec :=
  match heappop NextEvent.ltb dfltNE st.events with
  | none => (st, .error .stopIteration)
  | some (ne, rest) =>
    let st := { st with events := rest }
    let ds := ne.data_source
    match st.events_tables ds with
    | new :: more =>
      ({ st with
          events_tables := Function.update st.events_tables ds more
          events := heappush NextEvent.ltb dfltNE st.events ⟨new.event_id, new, ds⟩ },
        .ok ne.event)
    | [] =>
      if st.all_chunks then
        match load_next_chunk st ds with
        | (st', none) => (st', .ok ne.event)
        | (st', some .fileNotFoundError) => (st', .ok ne.event)
        | (st', some e) => (st', .error e)
      else
        (st, .ok ne.event)

/-- `MultiFiles.close` (lines 270-273): close every file held in the
`_open_files` dict.  The dict itself, the events tables and the priority
queue are left untouched. -/
def mfClose (st : MFState) : MFState :=
  st.open_files.foldl (fun s p => fileClose s p.2) st

/-- Repeatedly call `__next__`, collecting yielded records until an exception
ends the iteration (or the fuel runs out). -/
def mfRun : Nat → MFState → List Rec × MFState
  | 0, st => ([], st)
  | fuel + 1, st =>
    match mfNext st with
    | (st', .ok e) =>
      let res := mfRun fuel st'
      (e :: res.1, res.2)
    | (st', .error _) => ([], st')

/-- States reachable by constructing a `MultiFiles` (including a construction
that ended in an exception, whose partial state is kept) and then calling
`__next__` and `close` in any order. -/
inductive Reach : MFState → Prop
  | init (k : Nat) (chunks : Nat → Int → Option (List Rec)) (all_chunks : Bool)
      (first_chunk : Int) : Reach (mfInit k chunks all_chunks first_chunk).1
  | step {st : MFState} (h : Reach st) : Reach (mfNext st).1
  | close {st : MFState} (h : Reach st) : Reach (mfClose st)

/-- The effect of `close()` on the set of OS-level open handles: each file
in `_open_files` (iterated in order) has its serial closed. -/
def closeSerials (l : List (Nat × Nat)) (os : List (Nat × Nat)) : List (Nat × Nat) :=
  l.foldl (fun os p => os.filter fun q => q.2 ≠ p.2) os

/-- Handle-bookkeeping invariant of a `MultiFiles` state: the `_open_files`
dict has one entry per source, every OS-open handle is recorded in the
dict, OS-open handles have pairwise distinct sources and serials, and all
serials are below the next fresh one. -/
structure HandleInv (st : MFState) : Prop where
  ofnd : (st.open_files.map Prod.fst).Nodup
  sub : ∀ p ∈ st.os_open, p ∈ st.open_files
  osnd : (st.os_open.map Prod.fst).Nodup
  serial_nd : (st.os_open.map Prod.snd).Nodup
  os_lt : ∀ p ∈ st.os_open, p.2 < st.next_handle
  of_lt : ∀ p ∈ st.open_files, p.2 < st.next_handle

/-! ### Concrete scenarios used as explicit inputs -/

/-- Four parallel data sources, one single-record chunk each, every record
carrying the same `event_id = 5`; the payload records which source produced
the record. -/
def fsEqualIds : Nat → Int → Option (List Rec) := fun ds i =>
  if i = 0 ∧ ds < 4 then some [⟨5, ds⟩] else none

/-- Two data sources; the first chunk of source 0 exists but holds no
record. -/
def fsEmptyFirst : Nat → Int → Option (List Rec) := fun ds i =>
  if ds = 0 ∧ i = 0 then some []
  else if ds = 1 ∧ i = 0 then some [⟨7, 1⟩]
  else none

/-- A single data source with three chunk files whose record sequence is
`[1]`, `[]`, `[3]`: two records in total, non-decreasing, with an empty
middle chunk. -/
def fsEmptyMiddle : Nat → Int → Option (List Rec) := fun ds i =>
  if ds = 0 then
    if i = 0 then some [⟨1, 0⟩]
    else if i = 1 then some []
    else if i = 2 then some [⟨3, 0⟩]
    else none
  else none

/-- Two data sources with two chunks each; ids 1..6 interleaved across the
sources. -/
def fsTwoSources : Nat → Int → Option (List Rec) := fun ds i =>
  if ds = 0 then
    if i = 0 then some [⟨1, 10⟩, ⟨4, 11⟩] else if i = 1 then some [⟨6, 12⟩] else none
  else if ds = 1 then
    if i = 0 then some [⟨2, 20⟩, ⟨3, 21⟩] else if i = 1 then some [⟨5, 22⟩] else none
  else none

/-- A state with two pending sources whose tables are drained and whose
next chunk files do not exist: the next pop triggers a rollover attempt
that finds zero candidate files. -/
def stC6w : MFState :=
  { chunks := fun _ _ => none
    all_chunks := true
    current_chunk := fun _ => 0
    open_files := [(0, 0), (1, 1)]
    os_open := [(0, 0), (1, 1)]
    next_handle := 2
    events_tables := fun _ => []
    events := [⟨5, ⟨5, 50⟩, 0⟩, ⟨7, ⟨7, 70⟩, 1⟩] }

/-- A small concrete `MultiFiles` state with two pending queue entries
(priorities 5 and 7) and no rollover, used to exercise `__next__`. -/
def stC3w : MFState :=
  { chunks := fun _ _ => none
    all_chunks := false
    current_chunk := fun _ => 0
    open_files := []
    os_open := []
    next_handle := 0
    events_tables := fun _ => []
    events := [⟨5, ⟨5, 50⟩, 0⟩, ⟨7, ⟨7, 70⟩, 1⟩] }

/-! ### `ProtozfitsDL0EventSource` (dl0.py lines 150-351)

Only the correlation state is modelled: the per-telescope `MultiFiles`
objects (`_telescope_files`, a dict keyed by telescope id), the shared
lookahead buffer `_tel_event_buffer` (keyed by `(tel_id, event_id)` pairs),
and the `log_missing` reporting channel, which is `self.log.warning` when
the `warn_missing` trait is true and `self.log.debug` otherwise (lines
201-204); the model counts the calls to each. -/
structure DL0State where
  telescope_files : List (Nat × MFState)
  tel_event_buffer : List ((Nat × Nat) × Rec)
  warn_missing : Bool
  warn_count : Nat
  debug_count : Nat

/-- `self.log_missing(...)`: one warning-level or debug-level log record,
depending on the `warn_missing` trait. -/
def logMissing (st : DL0State) : DL0State :=
  if st.warn_missing then { st with warn_count := st.warn_count + 1 }
  else { st with debug_count := st.debug_count + 1 }

/-- The observable count of missing-data reports (log records emitted via
`log_missing`, at either level). -/
def missing_count (st : DL0State) : Nat := st.warn_count + st.debug_count

/-- `ProtozfitsDL0EventSource._get_next_tel_event(tel_id, event_id)` (lines
273-303): first try `_tel_event_buffer.pop((tel_id, event_id))`; otherwise,
only if the buffer currently holds fewer entries than the telescope's
`MultiFiles.n_open_files`, pull a single record from that telescope's
multiplexer (`StopIteration` is swallowed); a pulled record with a different
`event_id` is stored in the buffer under its own id and the lookup reports
the event missing (`log_missing`) and returns `None`. -/
def get_next_tel_event (st : DL0State) (tel_id event_id : Nat) :
    DL0State × Except PyErr (Option Rec) :=
  match dictGet st.tel_event_buffer (tel_id, event_id) with
  | some tel_event =>
    ({ st with tel_event_buffer := dictRemove st.tel_event_buffer (tel_id, event_id) },
      .ok (some tel_event))
  | none =>
    match dictGet st.telescope_files tel_id with
    | none => (st, .error .keyError)
    | some tel_file =>
      if st.tel_event_buffer.length < tel_file.open_files.length then
        match mfNext tel_file with
        | (mf', .ok tel_event) =>
          let st := { st with telescope_files := dictSet st.telescope_files tel_id mf' }
          if tel_event.event_id ≠ event_id then
            (logMissing
              { st with
                tel_event_buffer :=
                  dictSet st.tel_event_buffer (tel_id, tel_event.event_id) tel_event },
              .ok none)
          else
            (st, .ok (some tel_event))
        | (mf', .error .stopIteration) =>
          (logMissing { st with telescope_files := dictSet st.telescope_files tel_id mf' },
            .ok none)
        | (mf', .error e) =>
          ({ st with telescope_files := dictSet st.telescope_files tel_id mf' }, .error e)
      else
        (logMissing st, .ok none)

/-- A subarray trigger record, as exposed by the `SubarrayEvents` table. -/
structure SubarrayTrigger where
  event_id : Nat
  obs_id : Nat
  time : Nat
  tel_ids_with_trigger : List Nat
  tel_ids_with_data : List Nat
deriving DecidableEq, Repr

/-- The part of `ArrayEventContainer` filled by `_generator`: `dl0.tel` maps
each telescope id with found data to its record (the DL0 waveform
conversion performed by `_fill_dl0_container` is outside this model; the
matched record stands for the filled container). -/
structure ArrayEvent where
  count : Nat
  obs_id : Nat
  event_id : Nat
  time : Nat
  tels_with_trigger : List Nat
  tel : List (Nat × Rec)
deriving DecidableEq, Repr

/-- The inner loop of `_generator` (lines 322-344): for each telescope id in
`tel_ids_with_data`, `self._telescope_files[tel_id]` is read first (raising
`KeyError` for a telescope that was never configured), then
`_get_next_tel_event` is consulted; `None` means the telescope stays absent
from `dl0.tel` (`continue`), a record fills the telescope's slot. -/
def processTels : DL0State → Nat → List Nat → List (Nat × Rec) →
    DL0State × Except PyErr (List (Nat × Rec))
  | st, _, [], acc => (st, .ok acc)
  | st, event_id, tel_id :: rest, acc =>
    match dictGet st.telescope_files tel_id with
    | none => (st, .error .keyError)
    | some _ =>
      match get_next_tel_event st tel_id event_id with
      | (st', .error e) => (st', .error e)
      | (st', .ok none) => processTels st' event_id rest acc
      | (st', .ok (some tel_event)) =>
        processTels st' event_id rest (acc ++ [(tel_id, tel_event)])

/-- One iteration of `_generator` (lines 305-351): build the array event for
one subarray trigger and fill the telescope slots. -/
def process_subarray_trigger (st : DL0State) (count : Nat) (trig : SubarrayTrigger) :
    DL0State × Except PyErr ArrayEvent :=
  match processTels st trig.event_id trig.tel_ids_with_data [] with
  | (st', .error e) => (st', .error e)
  | (st', .ok telmap) =>
    (st',
      .ok
        { count := count
          obs_id := trig.obs_id
          event_id := trig.event_id
          time := trig.time
          tels_with_trigger := trig.tel_ids_with_trigger
          tel := telmap })

/-- Telescope 1's multiplexer merges two parallel sources whose single
chunks hold one record each, with `event_id`s 3 and 5. -/
def fsTelBehind : Nat → Int → Option (List Rec) := fun ds i =>
  if ds = 0 ∧ i = 0 then some [⟨3, 30⟩]
  else if ds = 1 ∧ i = 0 then some [⟨5, 50⟩]
  else none

/-- A correlator state with telescope 1 configured (two open parallel
files, so `n_open_files = 2`) and an empty lookahead buffer. -/
def stTelBehind : DL0State :=
  { telescope_files := [(1, (mfInit 2 fsTelBehind true 0).1)]
    tel_event_buffer := []
    warn_missing := true
    warn_count := 0
    debug_count := 0 }

/-! ### Merge-correctness auxiliaries

For the merge theorems a filesystem is generated from explicit per-source
chunk lists: `sources` lists, for each discovered data source (in discovery
order), its chunk files in order, starting at chunk index 0. -/

/-- The chunk files of data source `ds` (empty beyond the discovered
sources). -/
def srcChunks (sources : List (List (List Rec))) (ds : Nat) : List (List Rec) :=
  sources.getD ds []

/-- The filesystem generated by `sources`: chunk `i ≥ 0` of source `ds` is
present exactly when `i` is below that source's chunk count. -/
def fsOf (sources : List (List (List Rec))) : Nat → Int → Option (List Rec) :=
  fun ds i => if 0 ≤ i then (srcChunks sources ds).get? i.toNat else none

/-- The full record sequence emitted by source `ds`: the concatenation of
its chunks. -/
def flatSeq (sources : List (List (List Rec))) (ds : Nat) : List Rec :=
  (srcChunks sources ds).flatten

/-- The records of source `ds` that are neither consumed nor pending in the
priority queue: the unread tail of the current `Events` table followed by
the contents of the chunks after the current one. -/
def remSource (sources : List (List (List Rec))) (st : MFState) (ds : Nat) : List Rec :=
  st.events_tables ds
    ++ ((srcChunks sources ds).drop (st.current_chunk ds + 1).toNat).flatten

/-- Multiset of `event_id`s still to be yielded: for each pending queue
entry, its own record followed by the remainder of its source. -/
def pendingIds (sources : List (List (List Rec))) (st : MFState) : Multiset Nat :=
  (st.events.map fun ne =>
    (((ne.event :: remSource sources st ne.data_source).map Rec.event_id : List Nat)
      : Multiset Nat)).sum

/-- Multiset of `event_id`s of one source's full sequence. -/
def sourceIds (sources : List (List (List Rec))) (ds : Nat) : Multiset Nat :=
  (((flatSeq sources ds).map Rec.event_id : List Nat) : Multiset Nat)

/-- Records ordered by `event_id`. -/
def recLE (a b : Rec) : Prop := a.event_id ≤ b.event_id

instance : DecidableRel recLE := fun a b => Nat.decLe a.event_id b.event_id

/-- A concrete two-source, two-chunks-each scenario with globally
interleaved, per-source sorted `event_id`s. -/
def c1src : List (List (List Rec)) :=
  [[[⟨1, 10⟩, ⟨4, 11⟩], [⟨6, 12⟩]], [[⟨2, 20⟩, ⟨3, 21⟩], [⟨5, 22⟩]]]

/-- Run invariant of a `MultiFiles` state merging `sources` with rollover
enabled: the queue is a `heapq` heap holding at most one entry per source,
priorities are the entries' `event_id`s, each entry followed by its source's
remainder is a non-decreasing record sequence, and sources without a queue
entry are exhausted. -/
structure MergeInv (sources : List (List (List Rec))) (st : MFState) : Prop where
  chunks_eq : st.chunks = fsOf sources
  ac : st.all_chunks = true
  heap : IsHeap st.events
  nodup : (st.events.map NextEvent.data_source).Nodup
  prio : ∀ ne ∈ st.events, ne.priority = ne.event.event_id
  cur_lb : ∀ ds, -1 ≤ st.current_chunk ds
  chain : ∀ ne ∈ st.events,
    List.Chain' recLE (ne.event :: remSource sources st ne.data_source)
  dead : ∀ ds, ds ∉ st.events.map NextEvent.data_source →
    remSource sources st ds = []

/-- Intermediate state of the `__init__` seeding loop, after the sources in
`done` have been seeded (first chunk index 0). -/
structure InitMid (sources : List (List (List Rec))) (done : List Nat)
    (st : MFState) : Prop where
  chunks_eq : st.chunks = fsOf sources
  ac : st.all_chunks = true
  heap : IsHeap st.events
  srcs : (st.events.map NextEvent.data_source).Perm done
  prio : ∀ ne ∈ st.events, ne.priority = ne.event.event_id
  full : ∀ ne ∈ st.events,
    ne.event :: remSource sources st ne.data_source = flatSeq sources ne.data_source
  cur : ∀ ds, st.current_chunk ds = if ds ∈ done then 0 else -1
  tables : ∀ ds, ds ∉ done → st.events_tables ds = []

/-! ### Filename conventions (multifile.py lines 28-122)

Filenames are lists of characters.  The two regular expressions of
`filename_conventions` are embedded as deterministic parsers; greedy
matching of `\d+` and of the character classes is maximal munch, and the
`(:?_(?P<data_type>[a-zA-Z0-9_]+))?_CHUNK(?P<chunk>\d+)` part of the
`acada_dpps_icd` pattern — the only place where the regex engine needs
backtracking between alternatives — is resolved exactly as `re` does, by
trying the longest `data_type` span first (`icdTail` searches the
`_CHUNK`-with-digit boundary from the right).  The `(:?` in the source
pattern is a literal optional colon (not a non-capturing group marker), and
is modelled as such. -/

/-- `FileInfo` dataclass (multifile.py lines 28-40).  `sb_id`, `obs_id` and
`data_type` are `None`-able in `get_file_info`'s result. -/
structure FileInfo where
  tel_id : Nat
  data_source : List Char
  timestamp : List Char
  sb_id : Option Nat
  obs_id : Option Nat
  chunk : Nat
  data_type : Option (List Char)
  sb_id_padding : Nat
  obs_id_padding : Nat
  chunk_padding : Nat
  extra_suffix : List Char
deriving DecidableEq, Repr

/-- Decimal digits of `n`, most significant first (`fuel` bounds the digit
count; `fuel = n` suffices). -/
def natToDigitsAux : Nat → Nat → List Char
  | 0, _ => []
  | fuel + 1, n =>
    if n = 0 then [] else natToDigitsAux fuel (n / 10) ++ [Nat.digitChar (n % 10)]

/-- Python `"{:0wd}".format(n)`: decimal rendering of `n`, left-padded with
zeros to width `w` (never truncated). -/
def padDecimal (w n : Nat) : List Char :=
  let s := if n = 0 then ['0'] else natToDigitsAux n n
  List.replicate (w - s.length) '0' ++ s

/-- `int(...)` of a digit string. -/
def digitsToNat (ds : List Char) : Nat :=
  ds.foldl (fun a c => a * 10 + (c.toNat - 48)) 0

/-- The two members of `filename_conventions`. -/
inductive Convention
  | acada_rel1
  | acada_dpps_icd
deriving DecidableEq, Repr

/-- `acada_rel1_filename` (lines 43-45): the rel1 format template.  Python
raises `TypeError` when formatting `None` ids, hence the `Option`. -/
def acada_rel1_filename (info : FileInfo) : Option (List Char) :=
  match info.sb_id, info.obs_id with
  | some sb, some ob =>
    some ("Tel".data ++ padDecimal 3 info.tel_id ++ "_".data ++ info.data_source
      ++ "_".data ++ info.timestamp
      ++ "_sbid".data ++ padDecimal info.sb_id_padding sb
      ++ "_obid".data ++ padDecimal info.obs_id_padding ob
      ++ "_".data ++ padDecimal info.chunk_padding info.chunk
      ++ info.extra_suffix ++ ".fits.fz".data)
  | _, _ => none

/-- `acada_dpps_icd_filename` (lines 48-59): optional `_SBID`/`_OBSID`
segments, optional `_<data_type>` segment, then the chunk number. -/
def acada_dpps_icd_filename (info : FileInfo) : Option (List Char) :=
  some ("TEL".data ++ padDecimal 3 info.tel_id ++ "_".data ++ info.data_source
    ++ "_".data ++ info.timestamp
    ++ (match info.sb_id with
        | some sb => "_SBID".data ++ padDecimal info.sb_id_padding sb
        | none => [])
    ++ (match info.obs_id with
        | some ob => "_OBSID".data ++ padDecimal info.obs_id_padding ob
        | none => [])
    ++ (match info.data_type with
        | some dt => "_".data ++ dt
        | none => [])
    ++ "_CHUNK".data ++ padDecimal info.chunk_padding info.chunk
    ++ info.extra_suffix ++ ".fits.fz".data)

/-- Consume the literal `lit` from the front of `s`. -/
def dropLit : List Char → List Char → Option (List Char)
  | [], s => some s
  | _ :: _, [] => none
  | c :: cs, x :: xs => if x = c then dropLit cs xs else none

/-- Take exactly `n` characters, all decimal digits (`\d{n}`). -/
def takeDigitsExact (n : Nat) (s : List Char) : Option (List Char × List Char) :=
  let t := s.take n
  if t.length = n ∧ t.all Char.isDigit then some (t, s.drop n) else none

/-- Split `s` at the `.fits.fz$` anchor: the part matched by the greedy
`(?P<extra_suffix>.*)` and the check that the name ends in `.fits.fz`. -/
def splitTail (s : List Char) : Option (List Char) :=
  let n := s.length
  if 8 ≤ n ∧ s.drop (n - 8) = ".fits.fz".data then some (s.take (n - 8)) else none

/-- A character of the class `[a-zA-Z0-9_]`. -/
def isWordChar (c : Char) : Bool := c.isAlphanum || c = '_'

/-- Validate the span before the `_CHUNK` boundary as the (optional)
`(:?_(?P<data_type>[a-zA-Z0-9_]+))?` group: empty (group skipped), or an
optional literal colon, an underscore and a non-empty word. -/
def validDt (pre : List Char) : Option (Option (List Char)) :=
  if pre = [] then some none
  else
    let pre2 := if pre.headD ' ' = ':' then pre.tail else pre
    match pre2 with
    | '_' :: dt => if dt ≠ [] ∧ dt.all isWordChar then some (some dt) else none
    | _ => none

/-- Try the `_CHUNK` boundary at offset `k` of `core`. -/
def icdTailAt (core : List Char) (k : Nat) :
    Option (Option (List Char) × List Char × List Char) :=
  match dropLit "_CHUNK".data (core.drop k) with
  | none => none
  | some post =>
    let ds := post.takeWhile Char.isDigit
    let extra := post.dropWhile Char.isDigit
    if ds = [] then none
    else
      match validDt (core.take k) with
      | none => none
      | some dt => some (dt, ds, extra)

/-- Resolve `(:?_(?P<data_type>[a-zA-Z0-9_]+))?_CHUNK(?P<chunk>\d+)(?P<extra_suffix>.*)`
on the part of the name before the `.fits.fz` anchor, preferring the longest
`data_type` span, as the greedy regex engine does. -/
def icdTail (core : List Char) : Option (Option (List Char) × List Char × List Char) :=
  ((List.range (core.length + 1)).reverse).findSome? (icdTailAt core)

/-- The `acada_rel1` regular expression (lines 64-68) as a parser. -/
def parseRel1 (s : List Char) : Option FileInfo :=
  match dropLit "Tel".data s with
  | none => none
  | some s1 =>
    let tel := s1.takeWhile Char.isDigit
    let s1 := s1.dropWhile Char.isDigit
    if tel = [] then none
    else
      match dropLit "_SDH_".data s1 with
      | none => none
      | some s2 =>
        let srcd := s2.takeWhile Char.isDigit
        let s2 := s2.dropWhile Char.isDigit
        if srcd = [] then none
        else
          match dropLit "_".data s2 with
          | none => none
          | some s3 =>
            match takeDigitsExact 8 s3 with
            | none => none
            | some (d8, s4) =>
              match dropLit "T".data s4 with
              | none => none
              | some s5 =>
                match takeDigitsExact 6 s5 with
                | none => none
                | some (d6, s6) =>
                  match dropLit "_sbid".data s6 with
                  | none => none
                  | some s7 =>
                    let sb := s7.takeWhile Char.isDigit
                    let s7 := s7.dropWhile Char.isDigit
                    if sb = [] then none
                    else
                      match dropLit "_obid".data s7 with
                      | none => none
                      | some s8 =>
                        let ob := s8.takeWhile Char.isDigit
                        let s8 := s8.dropWhile Char.isDigit
                        if ob = [] then none
                        else
                          match dropLit "_".data s8 with
                          | none => none
                          | some s9 =>
                            let ck := s9.takeWhile Char.isDigit
                            let s9 := s9.dropWhile Char.isDigit
                            if ck = [] then none
                            else
                              match splitTail s9 with
                              | none => none
                              | some extra =>
                                some
                                  { tel_id := digitsToNat tel
                                    data_source := "SDH_".data ++ srcd
                                    timestamp := d8 ++ "T".data ++ d6
                                    sb_id := some (digitsToNat sb)
                                    obs_id := some (digitsToNat ob)
                                    chunk := digitsToNat ck
                                    data_type := none
                                    sb_id_padding := sb.length
                                    obs_id_padding := ob.length
                                    chunk_padding := ck.length
                                    extra_suffix := extra }

/-- The `acada_dpps_icd` regular expression (lines 70-76) as a parser.  The
greedy optional `_SBID`/`_OBSID` groups are taken whenever their literal and
at least one digit are present. -/
def parseIcd (s : List Char) : Option FileInfo :=
  match dropLit "TEL".data s with
  | none => none
  | some s1 =>
    let tel := s1.takeWhile Char.isDigit
    let s1 := s1.dropWhile Char.isDigit
    if tel = [] then none
    else
      match dropLit "_SDH".data s1 with
      | none => none
      | some s2 =>
        let srcd := s2.takeWhile Char.isDigit
        let s2 := s2.dropWhile Char.isDigit
        if srcd = [] then none
        else
          match dropLit "_".data s2 with
          | none => none
          | some s3 =>
            match takeDigitsExact 8 s3 with
            | none => none
            | some (d8, s4) =>
              match dropLit "T".data s4 with
              | none => none
              | some s5 =>
                match takeDigitsExact 6 s5 with
                | none => none
                | some (d6, s6) =>
                  let sbPart :=
                    match dropLit "_SBID".data s6 with
                    | none => (none, s6)
                    | some r =>
                      let ds := r.takeWhile Char.isDigit
                      if ds = [] then (none, s6) else (some ds, r.dropWhile Char.isDigit)
                  let obPart :=
                    match dropLit "_OBSID".data sbPart.2 with
                    | none => (none, sbPart.2)
                    | some r =>
                      let ds := r.takeWhile Char.isDigit
                      if ds = [] then (none, sbPart.2)
                      else (some ds, r.dropWhile Char.isDigit)
                  match splitTail obPart.2 with
                  | none => none
                  | some core =>
                    match icdTail core with
                    | none => none
                    | some (dt, ck, extra) =>
                      some
                        { tel_id := digitsToNat tel
                          data_source := "SDH".data ++ srcd
                          timestamp := d8 ++ "T".data ++ d6
                          sb_id := sbPart.1.map digitsToNat
                          obs_id := obPart.1.map digitsToNat
                          chunk := digitsToNat ck
                          data_type := dt
                          sb_id_padding := (sbPart.1.map List.length).getD 0
                          obs_id_padding := (obPart.1.map List.length).getD 0
                          chunk_padding := ck.length
                          extra_suffix := extra }

/-- `get_file_info(path, convention)` (lines 86-118) on the file's name;
`none` is the `ValueError` raised when the name does not match. -/
def get_file_info (name : List Char) : Convention → Option FileInfo
  | .acada_rel1 => parseRel1 name
  | .acada_dpps_icd => parseIcd name

/-- `get_file_name(info, convention)` (lines 121-122). -/
def get_file_name (info : FileInfo) : Convention → Option (List Char)
  | .acada_rel1 => acada_rel1_filename info
  | .acada_dpps_icd => acada_dpps_icd_filename info

/-- `get_file_name(get_file_info(name, c), c) == name`, as a Boolean. -/
def round_trip (c : Convention) (s : List Char) : Bool :=
  ((get_file_info s c).bind fun info => get_file_name info c) == some s

/-- The repository's sample filenames for the `acada_rel1` convention
(multifile.py line 63 and the test suite), including an extra-suffix
variant. -/
def rel1Samples : List (List Char) :=
  ["Tel001_SDH_3001_20231003T204445_sbid2000000008_obid2000000016_9.fits.fz".data,
   "Tel001_SDH_3001_20231003T204445_sbid2000000008_obid2000000016_9_foo_bar_baz.fits.fz".data]

/-- The repository's sample filenames for the `acada_dpps_icd` convention
(multifile.py line 71 and the test suite): with and without the optional
`SBID`/`OBSID` fields, with and without a `data_type` segment, and with an
extra suffix. -/
def icdSamples : List (List Char) :=
  ["TEL001_SDH0001_20231013T220427_SBID0000000002000000013_OBSID0000000002000000027_CHUNK000.fits.fz".data,
   "TEL001_SDH001_20230802T021531_SBID0000000000000000123_OBSID0000000000000000456_CHUNK000.fits.fz".data,
   "TEL001_SDH001_20230802T021531_SBID0000000000000000123_OBSID0000000000000000456_TEL_SHOWER_CHUNK000.fits.fz".data,
   "TEL001_SDH001_20230802T021531_SBID0000000000000000123_OBSID0000000000000000456_MUON_CHUNK000.fits.fz".data,
   "TEL001_SDH001_20230802T021531_CHUNK000.fits.fz".data,
   "TEL001_SDH001_20230802T021531_CALIB_CHUNK000.fits.fz".data,
   "TEL001_SDH001_20230802T021531_SBID123_OBSID456_CHUNK000_foo_bar_baz.fits.fz".data]

/-! ### Theorems -/

/-- C3, counterexample.  In the `fsEqualIds` scenario the multiplexer seeds
its priority queue with one pending record per source, in discovery order
`0, 1, 2, 3`, all with equal priority (`event_id = 5`).  Repeatedly calling
`__next__` then yields the sources' records in the order `0, 2, 1, 3`: while
the records of sources 1 and 2 are simultaneously pending with equal
`event_id`, the record of the later-discovered source 2 is popped first, so
the priority structure does not order pending records by
`(event_id, discovery_order)`. -/
theorem C3_counterexample :
    ((mfInit 4 fsEqualIds false 0).1.events.map fun ne => (ne.priority, ne.data_source))
        = [(5, 0), (5, 1), (5, 2), (5, 3)]
    ∧ ((mfRun 6 (mfInit 4 fsEqualIds false 0).1).1.map fun r => r.payload)
        = [0, 2, 1, 3] := by
  decide

/-- C5, counterexample.  In the `fsEmptyFirst` scenario two data sources are
discovered and the first chunk file of source 0 contains no record.
Constructing the `MultiFiles` does not skip that source: the `StopIteration`
raised by `next(events_table)` inside `_load_next_chunk` escapes
`__init__`. -/
theorem C5_counterexample :
    (mfInit 2 fsEmptyFirst true 0).2 = some PyErr.stopIteration := by
  decide

/-- C1, counterexample.  In the `fsEmptyMiddle` scenario the single source
holds two records in total (`event_id`s 1 then 3, a non-decreasing
sequence), but because its middle chunk file is empty, the very first
`__next__` call raises `StopIteration` (escaping from the uncaught
`next(events_table)` in `_load_next_chunk`), so iterating until exhaustion
yields zero records instead of the claimed `Σ n_i = 2`. -/
theorem C1_counterexample :
    (mfInit 1 fsEmptyMiddle true 0).2 = none
    ∧ (mfNext (mfInit 1 fsEmptyMiddle true 0).1).2 = Except.error PyErr.stopIteration
    ∧ (mfRun 5 (mfInit 1 fsEmptyMiddle true 0).1).1 = [] := by
  decide

/-- C9, counterexample.  In the `fsTwoSources` scenario, after `close()` the
next call to `__next__` still returns a record (the pending entry of the
priority queue) instead of signalling exhaustion: `close` only closes the
file handles and leaves `_events` and `_events_tables` untouched. -/
theorem C9_counterexample :
    (mfClose (mfInit 2 fsTwoSources true 0).1).os_open = []
    ∧ (mfNext (mfClose (mfInit 2 fsTwoSources true 0).1)).2
        = Except.ok (⟨1, 10⟩ : Rec) := by
  decide

/-- Auxiliary: `log_missing` emits exactly one log record. -/
theorem missing_count_logMissing (st : DL0State) :
    missing_count (logMissing st) = missing_count st + 1 := by
  unfold logMissing missing_count
  split <;> simp <;> omega

/-- C2, counterexample.  In the `stTelBehind` state, telescope 1's
multiplexer has `n_open_files = 2` and its next two records have
`event_id`s 3 and 5, while the lookahead buffer is empty.  Querying
`_get_next_tel_event(1, 5)` pulls only the single record with id 3, stores
it, and reports event 5 missing — even though a second pull (still within
the claimed `open_source_count = 2` bound) would have found the matching
record, which remains pending in the multiplexer.  The correlator therefore
does not "pull up to open_source_count records, continuing after a
mismatch". -/
theorem C2_counterexample :
    ((dictGet stTelBehind.telescope_files 1).map fun mf => mf.open_files.length) = some 2
    ∧ (get_next_tel_event stTelBehind 1 5).2 = Except.ok none
    ∧ ((get_next_tel_event stTelBehind 1 5).1.tel_event_buffer.map
        fun p => (p.1, p.2.event_id)) = [((1, 3), 3)]
    ∧ ((dictGet (get_next_tel_event stTelBehind 1 5).1.telescope_files 1).map
        fun mf => mf.events.map fun ne => ne.priority) = some [5] := by
  refine ⟨rfl, by decide, by decide, ?_⟩
  decide

/-- C2, amended.  When the lookahead buffer does not hold
`(tel_id, event_id)`, the correlator pulls at most one record from the
telescope's multiplexer, and only when the shared buffer currently holds
fewer records than that telescope's `n_open_files`; if the single pulled
record has a different `event_id`, it is stored in the buffer under its own
id and the lookup immediately reports the event missing, without pulling
further. -/
theorem C2_single_pull (st : DL0State) (t id : Nat) (mf mf₁ : MFState) (e : Rec)
    (hbuf : dictGet st.tel_event_buffer (t, id) = none)
    (htf : dictGet st.telescope_files t = some mf)
    (hlen : st.tel_event_buffer.length < mf.open_files.length)
    (hpull : mfNext mf = (mf₁, Except.ok e))
    (hne : e.event_id ≠ id) :
    get_next_tel_event st t id =
      (logMissing
        { st with
          telescope_files := dictSet st.telescope_files t mf₁
          tel_event_buffer := dictSet st.tel_event_buffer (t, e.event_id) e },
        Except.ok none) := by
  simp only [get_next_tel_event, hbuf, htf, if_pos hlen, hpull, hne, ne_eq,
    not_false_iff, if_true, ite_true]

/-- Witness for `C2_single_pull` at the `stTelBehind` scenario. -/
theorem C2_single_pull_witness :
    (get_next_tel_event stTelBehind 1 5).2 = Except.ok none := by
  have hpull : mfNext (mfInit 2 fsTelBehind true 0).1
      = ((mfNext (mfInit 2 fsTelBehind true 0).1).1, Except.ok (⟨3, 30⟩ : Rec)) := by
    have h2 : (mfNext (mfInit 2 fsTelBehind true 0).1).2 = Except.ok (⟨3, 30⟩ : Rec) := by
      decide
    calc mfNext (mfInit 2 fsTelBehind true 0).1
        = ((mfNext (mfInit 2 fsTelBehind true 0).1).1,
            (mfNext (mfInit 2 fsTelBehind true 0).1).2) := rfl
      _ = ((mfNext (mfInit 2 fsTelBehind true 0).1).1, Except.ok (⟨3, 30⟩ : Rec)) := by
          rw [h2]
  rw [C2_single_pull stTelBehind 1 5 ((mfInit 2 fsTelBehind true 0).1)
      ((mfNext (mfInit 2 fsTelBehind true 0).1).1) ⟨3, 30⟩ (by decide) rfl (by decide)
      hpull (by decide)]

/-- C4, confirmed.  If a subarray trigger lists telescope `t` as having
data, `t` is configured, the buffer has no record for the trigger's
`event_id`, and the (single) pull from `t`'s stream either yields nothing
or yields a record with a different id — in particular whenever `t`'s
stream omits that `event_id` — then the generator still yields the array
event for that trigger with telescope `t`'s slot absent from `dl0.tel`, the
observable missing-data count (`log_missing` records) grows by exactly one,
and no exception propagates. -/
theorem C4_missing_data_tolerated (st : DL0State) (count : Nat) (trig : SubarrayTrigger)
    (t : Nat) (mf : MFState)
    (htels : trig.tel_ids_with_data = [t])
    (htf : dictGet st.telescope_files t = some mf)
    (hbuf : dictGet st.tel_event_buffer (t, trig.event_id) = none)
    (homit : (mfNext mf).2 = Except.error PyErr.stopIteration
      ∨ ∃ e : Rec, (mfNext mf).2 = Except.ok e ∧ e.event_id ≠ trig.event_id) :
    ∃ st' : DL0State,
      process_subarray_trigger st count trig =
        (st',
          Except.ok
            { count := count
              obs_id := trig.obs_id
              event_id := trig.event_id
              time := trig.time
              tels_with_trigger := trig.tel_ids_with_trigger
              tel := [] })
      ∧ missing_count st' = missing_count st + 1 := by
  rcases hmf : mfNext mf with ⟨mf₁, r⟩
  replace homit : r = Except.error PyErr.stopIteration
      ∨ ∃ e : Rec, r = Except.ok e ∧ e.event_id ≠ trig.event_id := by
    rw [hmf] at homit
    exact homit
  by_cases hlen : st.tel_event_buffer.length < mf.open_files.length
  · rcases homit with hstop | ⟨e, hok, hne⟩
    · subst hstop
      simp only [process_subarray_trigger, processTels, htels, htf, get_next_tel_event,
        hbuf, if_pos hlen, hmf]
      exact ⟨_, rfl, missing_count_logMissing _⟩
    · subst hok
      simp only [process_subarray_trigger, processTels, htels, htf, get_next_tel_event,
        hbuf, if_pos hlen, hmf, hne, ne_eq, not_false_iff, if_true, ite_true]
      exact ⟨_, rfl, missing_count_logMissing _⟩
  · simp only [process_subarray_trigger, processTels, htels, htf, get_next_tel_event,
      hbuf, if_neg hlen]
    exact ⟨_, rfl, missing_count_logMissing _⟩

/-- Witness for `C4_missing_data_tolerated`: telescope 1's stream holds only
ids 3 and 5, the trigger references id 9 with telescope 1. -/
theorem C4_missing_data_tolerated_witness :
    ∃ st' : DL0State,
      process_subarray_trigger stTelBehind 0 ⟨9, 1, 0, [1], [1]⟩ =
        (st',
          Except.ok
            { count := 0, obs_id := 1, event_id := 9, time := 0
              tels_with_trigger := [1], tel := [] })
      ∧ missing_count st' = missing_count stTelBehind + 1 := by
  exact C4_missing_data_tolerated stTelBehind 0 ⟨9, 1, 0, [1], [1]⟩ 1
    ((mfInit 2 fsTelBehind true 0).1) rfl rfl (by decide)
    (Or.inr ⟨⟨3, 30⟩, by decide, by decide⟩)

/-- C7, counterexample.  In the `stTelBehind` state telescope 2 has no
configured stream; a trigger listing telescope 2 as having data makes the
generator raise an uncaught `KeyError` (from
`self._telescope_files[tel_id]`), so processing of that event does not
continue and no configuration flag is consulted. -/
theorem C7_counterexample :
    (process_subarray_trigger stTelBehind 0 ⟨7, 1, 0, [2], [2]⟩).2
      = Except.error PyErr.keyError := by
  decide

/-- C7, amended.  A telescope id that the trigger lists as having data but
for which no stream was configured makes the generator raise an uncaught
`KeyError` (shown here when the telescope is the first listed); the
`warn_missing` flag never turns anything into a hard error — it only
selects the logging level, and the result of `_get_next_tel_event` does not
depend on it. -/
theorem C7_unconfigured_telescope :
    (∀ (st : DL0State) (count : Nat) (trig : SubarrayTrigger) (t : Nat) (rest : List Nat),
        trig.tel_ids_with_data = t :: rest →
        dictGet st.telescope_files t = none →
        process_subarray_trigger st count trig = (st, Except.error PyErr.keyError))
    ∧ (∀ (st : DL0State) (t id : Nat) (b : Bool),
        (get_next_tel_event { st with warn_missing := b } t id).2
          = (get_next_tel_event st t id).2) := by
  constructor
  · intro st count trig t rest htels htf
    unfold process_subarray_trigger
    rw [htels]
    unfold processTels
    rw [htf]
  · intro st t id b
    unfold get_next_tel_event
    cases h1 : dictGet st.tel_event_buffer (t, id) with
    | some ev => rfl
    | none =>
      simp only
      cases h2 : dictGet st.telescope_files t with
      | none => rfl
      | some tel_file =>
        simp only
        by_cases hlen : st.tel_event_buffer.length < tel_file.open_files.length
        · rw [if_pos hlen, if_pos hlen]
          rcases hmf : mfNext tel_file with ⟨mf', r⟩
          cases r with
          | ok ev =>
            simp only
            by_cases hne : ev.event_id ≠ id
            · rw [if_pos hne, if_pos hne]
            · rw [if_neg hne, if_neg hne]
          | error e => cases e <;> rfl
        · rw [if_neg hlen, if_neg hlen]

/-- Witness for `C7_unconfigured_telescope` at the `stTelBehind` scenario. -/
theorem C7_unconfigured_telescope_witness :
    process_subarray_trigger stTelBehind 0 ⟨7, 1, 0, [2], [2]⟩
      = (stTelBehind, Except.error PyErr.keyError) := by
  exact C7_unconfigured_telescope.1 stTelBehind 0 ⟨7, 1, 0, [2], [2]⟩ 2 [] rfl rfl

/-! ### List index auxiliaries -/

theorem getD_set_self : ∀ (l : List α) (i : Nat) (a d : α), i < l.length →
    (l.set i a).getD i d = a
  | [], i, _, _, h => absurd h (by simp)
  | _ :: _, 0, _, _, _ => rfl
  | _ :: xs, i + 1, a, d, h => getD_set_self xs i a d (by simpa using h)

theorem getD_set_ne : ∀ (l : List α) (i j : Nat) (a d : α), i ≠ j →
    (l.set i a).getD j d = l.getD j d
  | [], _, _, _, _, _ => rfl
  | _ :: _, 0, 0, _, _, hij => absurd rfl hij
  | _ :: _, 0, _ + 1, _, _, _ => rfl
  | _ :: _, _ + 1, 0, _, _, _ => rfl
  | _ :: xs, i + 1, j + 1, a, d, hij =>
    getD_set_ne xs i j a d (fun hc => hij (by rw [hc]))

theorem getD_append_left : ∀ (l₁ l₂ : List α) (i : Nat) (d : α), i < l₁.length →
    (l₁ ++ l₂).getD i d = l₁.getD i d
  | [], _, i, _, h => absurd h (by simp)
  | _ :: _, _, 0, _, _ => rfl
  | _ :: xs, l₂, i + 1, d, h => getD_append_left xs l₂ i d (by simpa using h)

theorem getD_append_len : ∀ (l : List α) (x d : α), (l ++ [x]).getD l.length d = x
  | [], _, _ => rfl
  | _ :: xs, x, d => getD_append_len xs x d

theorem set_append_len : ∀ (l : List α) (x y : α), (l ++ [x]).set l.length y = l ++ [y]
  | [], _, _ => rfl
  | a :: xs, x, y => by simpa using set_append_len xs x y

theorem getD_mem : ∀ (l : List α) (i : Nat) (d : α), i < l.length → l.getD i d ∈ l
  | [], _, _, h => absurd h (by simp)
  | x :: _, 0, _, _ => List.mem_cons_self x _
  | _ :: xs, i + 1, d, h => List.mem_cons_of_mem _ (getD_mem xs i d (by simpa using h))

theorem exists_getD_of_mem (d : α) : ∀ {l : List α} {b : α}, b ∈ l →
    ∃ i, i < l.length ∧ l.getD i d = b := by
  intro l
  induction l with
  | nil => intro b hb; cases hb
  | cons x xs ih =>
    intro b hb
    rcases List.mem_cons.mp hb with hb | hb
    · exact ⟨0, by simp, hb.symm⟩
    · obtain ⟨i, hi, hgi⟩ := ih hb
      exact ⟨i + 1, by simpa using hi, hgi⟩

theorem getD_take : ∀ (l : List α) (n i : Nat) (d : α), i < n →
    (l.take n).getD i d = l.getD i d
  | [], _, _, _, _ => by simp
  | _ :: _, _ + 1, 0, _, _ => rfl
  | _ :: xs, n + 1, i + 1, d, h => getD_take xs n i d (by omega)
  | _ :: _, 0, _, _, h => absurd h (by omega)

theorem getD_dropLast (l : List α) (i : Nat) (d : α) (h : i + 1 < l.length) :
    l.dropLast.getD i d = l.getD i d := by
  rw [List.dropLast_eq_take]
  exact getD_take l (l.length - 1) i d (by omega)

/-- Replacing position `i` of `l` by `b` and putting the old value in front
is a permutation of putting `b` in front of `l`. -/
theorem perm_set_cons : ∀ (l : List α) (i : Nat) (b d : α), i < l.length →
    (l.getD i d :: l.set i b).Perm (b :: l)
  | [], _, _, _, h => absurd h (by simp)
  | x :: xs, 0, b, d, _ => List.Perm.swap b x xs
  | x :: xs, i + 1, b, d, h => by
    have ih := perm_set_cons xs i b d (by simpa using h)
    have s1 : (xs.getD i d :: x :: xs.set i b).Perm (x :: xs.getD i d :: xs.set i b) :=
      List.Perm.swap x (xs.getD i d) _
    have s2 : (x :: xs.getD i d :: xs.set i b).Perm (x :: b :: xs) := ih.cons x
    have s3 : (x :: b :: xs).Perm (b :: x :: xs) := List.Perm.swap b x xs
    exact s1.trans (s2.trans s3)

/-- Swapping the contents of two positions commutes with a later overwrite:
setting `i := l[j]` and then `j := x` permutes to just setting `i := x`. -/
theorem set_swap_perm (l : List α) (i j : Nat) (x d : α) (hij : i ≠ j)
    (hi : i < l.length) (hj : j < l.length) :
    ((l.set i (l.getD j d)).set j x).Perm (l.set i x) := by
  have hlen : (l.set i (l.getD j d)).length = l.length := by simp
  have h3 : ((l.set i (l.getD j d)).getD j d :: (l.set i (l.getD j d)).set j x).Perm
      (x :: l.set i (l.getD j d)) :=
    perm_set_cons _ j x d (by omega)
  rw [getD_set_ne l i j _ d hij] at h3
  have h1 : (l.getD i d :: l.set i (l.getD j d)).Perm (l.getD j d :: l) :=
    perm_set_cons l i (l.getD j d) d hi
  have h2 : (l.getD i d :: l.set i x).Perm (x :: l) := perm_set_cons l i x d hi
  have key : (x :: l.set i (l.getD j d)).Perm (l.getD j d :: l.set i x) := by
    apply List.Perm.cons_inv (a := l.getD i d)
    have k1 : (l.getD i d :: x :: l.set i (l.getD j d)).Perm
        (x :: l.getD i d :: l.set i (l.getD j d)) := List.Perm.swap x _ _
    have k2 : (x :: l.getD i d :: l.set i (l.getD j d)).Perm (x :: l.getD j d :: l) :=
      h1.cons x
    have k3 : (x :: l.getD j d :: l).Perm (l.getD j d :: x :: l) := List.Perm.swap _ x l
    have k4 : (l.getD j d :: x :: l).Perm (l.getD j d :: l.getD i d :: l.set i x) :=
      (h2.symm).cons _
    have k5 : (l.getD j d :: l.getD i d :: l.set i x).Perm
        (l.getD i d :: l.getD j d :: l.set i x) := List.Perm.swap _ _ _
    exact k1.trans (k2.trans (k3.trans (k4.trans k5)))
  exact List.Perm.cons_inv (a := l.getD j d) (h3.trans key)

/-! ### CPython heapq: permutation and heap-invariant lemmas -/

theorem siftdownAux_perm (x : NextEvent) :
    ∀ (fuel : Nat) (h : List NextEvent) (pos : Nat), pos < h.length →
      (siftdownAux NextEvent.ltb dfltNE 0 x fuel h pos).Perm (h.set pos x) := by
  intro fuel
  induction fuel with
  | zero => intro h pos _; exact List.Perm.refl _
  | succ fuel ih =>
    intro h pos hpos
    unfold siftdownAux
    by_cases h0 : 0 < pos
    · rw [if_pos h0]
      by_cases hlt : NextEvent.ltb x (h.getD ((pos - 1) / 2) dfltNE)
      · rw [if_pos hlt]
        have hpar : (pos - 1) / 2 < pos := by omega
        have h1 := ih (h.set pos (h.getD ((pos - 1) / 2) dfltNE)) ((pos - 1) / 2)
          (by simpa using lt_trans hpar hpos)
        refine h1.trans ?_
        exact set_swap_perm h pos ((pos - 1) / 2) x dfltNE (by omega) hpos
          (lt_trans hpar hpos)
      · rw [if_neg hlt]
    · rw [if_neg h0]

theorem siftdownAux_isHeap (x : NextEvent) :
    ∀ (fuel : Nat) (h : List NextEvent) (pos : Nat), pos < h.length → pos ≤ fuel →
      (∀ j, j < h.length → 0 < j → j ≠ pos →
        (h.getD (Par j) dfltNE).priority ≤ (h.getD j dfltNE).priority) →
      (∀ j, j < h.length → Par j = pos → 0 < pos →
        (h.getD (Par pos) dfltNE).priority ≤ (h.getD j dfltNE).priority) →
      (∀ j, j < h.length → Par j = pos → 0 < j →
        x.priority ≤ (h.getD j dfltNE).priority) →
      IsHeap (siftdownAux NextEvent.ltb dfltNE 0 x fuel h pos) := by
  intro fuel
  induction fuel with
  | zero =>
    intro h pos hpos hfuel hA _ hC
    have hp0 : pos = 0 := by omega
    subst hp0
    unfold siftdownAux
    intro j hj hj0
    rw [List.length_set] at hj
    by_cases hpj : Par j = 0
    · rw [hpj, getD_set_self h 0 x dfltNE (by omega), getD_set_ne h 0 j x dfltNE (by omega)]
      exact hC j hj hpj hj0
    · rw [getD_set_ne h 0 j x dfltNE (by omega),
        getD_set_ne h 0 (Par j) x dfltNE (fun hc => hpj hc.symm)]
      exact hA j hj hj0 (by omega)
  | succ fuel ih =>
    intro h pos hpos hfuel hA hB hC
    unfold siftdownAux
    by_cases h0 : 0 < pos
    · rw [if_pos h0]
      by_cases hlt : NextEvent.ltb x (h.getD ((pos - 1) / 2) dfltNE)
      · rw [if_pos hlt]
        have hlt' : x.priority < (h.getD ((pos - 1) / 2) dfltNE).priority := by
          simpa [NextEvent.ltb] using hlt
        have hpp : Par pos = (pos - 1) / 2 := rfl
        have hparlt : Par pos < pos := by simp only [Par]; omega
        set p' := (pos - 1) / 2 with hp'
        have hp'pos : p' < pos := by omega
        set h' := h.set pos (h.getD p' dfltNE) with hh'
        have hlen' : h'.length = h.length := by simp [hh']
        apply ih h' p' (by omega) (by omega)
        · -- condition (a) at the new hole p'
          intro j hj hj0 hjp'
          rw [hlen'] at hj
          by_cases hjpos : j = pos
          · subst hjpos
            rw [hh', getD_set_self h j (h.getD p' dfltNE) dfltNE hj]
            have : Par j = p' := hpp
            rw [this, getD_set_ne h j p' _ dfltNE (by omega)]
          · rw [hh', getD_set_ne h pos j _ dfltNE (fun hc => hjpos hc.symm)]
            by_cases hpj : Par j = pos
            · rw [hpj, getD_set_self h pos _ dfltNE hpos]
              exact hB j hj hpj h0
            · rw [getD_set_ne h pos (Par j) _ dfltNE (fun hc => hpj hc.symm)]
              exact hA j hj hj0 hjpos
        · -- condition (b) at the new hole p'
          intro j hj hpj hp'0
          rw [hlen'] at hj
          have hparp' : Par p' ≠ pos := by
            have : Par p' ≤ p' := by simp only [Par]; omega
            omega
          rw [hh', getD_set_ne h pos (Par p') _ dfltNE (fun hc => hparp' hc.symm)]
          have hApply : (h.getD (Par p') dfltNE).priority ≤ (h.getD p' dfltNE).priority :=
            hA p' (by omega) hp'0 (by omega)
          by_cases hjpos : j = pos
          · subst hjpos
            rw [getD_set_self h j _ dfltNE hj]
            exact hApply
          · rw [getD_set_ne h pos j _ dfltNE (fun hc => hjpos hc.symm)]
            have hj0 : 0 < j := by
              simp only [Par] at hpj
              omega
            have hAj := hA j hj hj0 hjpos
            rw [hpj] at hAj
            exact le_trans hApply hAj
        · -- condition (c) at the new hole p'
          intro j hj hpj hj0
          rw [hlen'] at hj
          by_cases hjpos : j = pos
          · subst hjpos
            rw [hh', getD_set_self h j _ dfltNE hj]
            exact le_of_lt hlt'
          · rw [hh', getD_set_ne h pos j _ dfltNE (fun hc => hjpos hc.symm)]
            refine le_trans (le_of_lt hlt') ?_
            have hAj := hA j hj hj0 hjpos
            rw [hpj] at hAj
            exact hAj
      · rw [if_neg hlt]
        have hge : (h.getD ((pos - 1) / 2) dfltNE).priority ≤ x.priority := by
          simpa [NextEvent.ltb] using hlt
        intro j hj hj0
        rw [List.length_set] at hj
        by_cases hjpos : j = pos
        · subst hjpos
          rw [getD_set_self h j x dfltNE hj]
          have hpar : Par j ≠ j := by simp only [Par]; omega
          rw [getD_set_ne h j (Par j) x dfltNE (fun hc => hpar hc.symm)]
          exact hge
        · rw [getD_set_ne h pos j x dfltNE (fun hc => hjpos hc.symm)]
          by_cases hpj : Par j = pos
          · rw [hpj, getD_set_self h pos x dfltNE hpos]
            exact hC j hj hpj hj0
          · rw [getD_set_ne h pos (Par j) x dfltNE (fun hc => hpj hc.symm)]
            exact hA j hj hj0 hjpos
    · rw [if_neg h0]
      have hp0 : pos = 0 := by omega
      subst hp0
      intro j hj hj0
      rw [List.length_set] at hj
      by_cases hpj : Par j = 0
      · rw [hpj, getD_set_self h 0 x dfltNE (by omega), getD_set_ne h 0 j x dfltNE (by omega)]
        exact hC j hj hpj hj0
      · rw [getD_set_ne h 0 j x dfltNE (by omega),
          getD_set_ne h 0 (Par j) x dfltNE (fun hc => hpj hc.symm)]
        exact hA j hj hj0 (by omega)

theorem heappush_perm (h : List NextEvent) (x : NextEvent) :
    (heappush NextEvent.ltb dfltNE h x).Perm (x :: h) := by
  unfold heappush siftdown
  rw [getD_append_len h x dfltNE]
  have hlen : h.length < (h ++ [x]).length := by simp
  have hp := siftdownAux_perm x h.length (h ++ [x]) h.length hlen
  rw [set_append_len h x x] at hp
  exact hp.trans (List.perm_append_singleton x h)

theorem heappush_isHeap (h : List NextEvent) (x : NextEvent) (hh : IsHeap h) :
    IsHeap (heappush NextEvent.ltb dfltNE h x) := by
  unfold heappush siftdown
  rw [getD_append_len h x dfltNE]
  apply siftdownAux_isHeap x h.length (h ++ [x]) h.length (by simp) le_rfl
  · intro j hj hj0 hjpos
    rw [List.length_append, List.length_singleton] at hj
    have hjlt : j < h.length := by omega
    have hparlt : Par j < h.length := by simp only [Par]; omega
    rw [getD_append_left h [x] j dfltNE hjlt, getD_append_left h [x] (Par j) dfltNE hparlt]
    exact hh j hjlt hj0
  · intro j hj hpj hpos0
    exfalso
    rw [List.length_append, List.length_singleton] at hj
    simp only [Par] at hpj
    omega
  · intro j hj hpj hj0
    exfalso
    rw [List.length_append, List.length_singleton] at hj
    simp only [Par] at hpj
    omega

theorem isHeap_root_le (l : List NextEvent) (hh : IsHeap l) :
    ∀ j, j < l.length → (l.getD 0 dfltNE).priority ≤ (l.getD j dfltNE).priority := by
  intro j
  induction j using Nat.strong_induction_on with
  | _ j ih =>
    intro hj
    rcases Nat.eq_zero_or_pos j with hz | hp
    · subst hz; exact le_rfl
    · have hpar : Par j < j := by simp only [Par]; omega
      exact le_trans (ih (Par j) hpar (lt_trans hpar hj)) (hh j hj hp)

/-- One hole-moving step of `_siftup`: when the hole at `pos` moves to the
chosen child `c`, the two phase-1 conditions are re-established at `c`. -/
theorem siftupStep (h : List NextEvent) (pos c : Nat)
    (hpos : pos < h.length) (hclt : c < h.length) (hcpos : pos < c) (hparc : Par c = pos)
    (hmin : ∀ j, j < h.length → Par j = pos → j ≠ pos →
      (h.getD c dfltNE).priority ≤ (h.getD j dfltNE).priority)
    (hA : ∀ j, j < h.length → 0 < j → j ≠ pos → Par j ≠ pos →
      (h.getD (Par j) dfltNE).priority ≤ (h.getD j dfltNE).priority)
    (hB : ∀ j, j < h.length → Par j = pos → 0 < pos →
      (h.getD (Par pos) dfltNE).priority ≤ (h.getD j dfltNE).priority) :
    (∀ j, j < (h.set pos (h.getD c dfltNE)).length → 0 < j → j ≠ c → Par j ≠ c →
      ((h.set pos (h.getD c dfltNE)).getD (Par j) dfltNE).priority
        ≤ ((h.set pos (h.getD c dfltNE)).getD j dfltNE).priority) ∧
    (∀ j, j < (h.set pos (h.getD c dfltNE)).length → Par j = c → 0 < c →
      ((h.set pos (h.getD c dfltNE)).getD (Par c) dfltNE).priority
        ≤ ((h.set pos (h.getD c dfltNE)).getD j dfltNE).priority) := by
  constructor
  · intro j hj hj0 hjc hpjc
    rw [List.length_set] at hj
    by_cases hjpos : j = pos
    · subst hjpos
      rw [getD_set_self h j _ dfltNE hj]
      have hparj : Par j ≠ j := by simp only [Par]; omega
      rw [getD_set_ne h j (Par j) _ dfltNE (fun hcx => hparj hcx.symm)]
      exact hB c hclt hparc hj0
    · rw [getD_set_ne h pos j _ dfltNE (fun hcx => hjpos hcx.symm)]
      by_cases hpj : Par j = pos
      · rw [hpj, getD_set_self h pos _ dfltNE hpos]
        exact hmin j hj hpj hjpos
      · rw [getD_set_ne h pos (Par j) _ dfltNE (fun hcx => hpj hcx.symm)]
        exact hA j hj hj0 hjpos hpj
  · intro j hj hpj _
    rw [List.length_set] at hj
    have hjne : j ≠ pos := by
      simp only [Par] at hpj
      omega
    have hj0 : 0 < j := by
      simp only [Par] at hpj
      omega
    have hL : ((h.set pos (h.getD c dfltNE)).getD (Par c) dfltNE) = h.getD c dfltNE := by
      rw [hparc, getD_set_self h pos _ dfltNE hpos]
    rw [hL, getD_set_ne h pos j _ dfltNE (fun hcx => hjne hcx.symm)]
    by_cases hjc : j = c
    · subst hjc
      exact le_rfl
    · have hAj := hA j hj hj0 hjne (by rw [hpj]; omega)
      rw [hpj] at hAj
      exact hAj

/-- The child chosen by `_siftup` is a child of `pos`, in range, and of
minimal priority among the children of `pos`. -/
theorem siftupChild_spec (h : List NextEvent) (pos : Nat) (hcp : 2 * pos + 1 < h.length) :
    Par (siftupChild NextEvent.ltb dfltNE h.length h pos) = pos ∧
    pos < siftupChild NextEvent.ltb dfltNE h.length h pos ∧
    siftupChild NextEvent.ltb dfltNE h.length h pos < h.length ∧
    (∀ j, j < h.length → Par j = pos → j ≠ pos →
      (h.getD (siftupChild NextEvent.ltb dfltNE h.length h pos) dfltNE).priority
        ≤ (h.getD j dfltNE).priority) := by
  unfold siftupChild
  by_cases hcond : (decide (2 * pos + 1 + 1 < h.length)
      && !(NextEvent.ltb (h.getD (2 * pos + 1) dfltNE)
        (h.getD (2 * pos + 1 + 1) dfltNE))) = true
  · rw [if_pos hcond]
    simp only [Bool.and_eq_true, Bool.not_eq_true'] at hcond
    obtain ⟨hrin, hnlt⟩ := hcond
    have hrin' : 2 * pos + 1 + 1 < h.length := of_decide_eq_true hrin
    have hle : (h.getD (2 * pos + 1 + 1) dfltNE).priority
        ≤ (h.getD (2 * pos + 1) dfltNE).priority := by
      have hx : ¬((h.getD (2 * pos + 1) dfltNE).priority
          < (h.getD (2 * pos + 1 + 1) dfltNE).priority) := by
        simpa [NextEvent.ltb] using hnlt
      omega
    refine ⟨by simp only [Par]; omega, by omega, hrin', ?_⟩
    intro j hj hpj hjne
    have hj12 : j = 2 * pos + 1 ∨ j = 2 * pos + 1 + 1 := by
      simp only [Par] at hpj
      omega
    rcases hj12 with hj' | hj'
    · rw [hj']
      exact hle
    · rw [hj']
  · rw [if_neg hcond]
    refine ⟨by simp only [Par]; omega, by omega, hcp, ?_⟩
    intro j hj hpj hjne
    have hj12 : j = 2 * pos + 1 ∨ j = 2 * pos + 1 + 1 := by
      simp only [Par] at hpj
      omega
    rcases hj12 with hj' | hj'
    · rw [hj']
    · subst hj'
      simp only [Bool.and_eq_true, Bool.not_eq_true', not_and] at hcond
      have hltb := hcond (decide_eq_true (by omega : 2 * pos + 1 + 1 < h.length))
      have hltb' : NextEvent.ltb (h.getD (2 * pos + 1) dfltNE)
          (h.getD (2 * pos + 1 + 1) dfltNE) = true := by
        simpa using hltb
      have hlt : (h.getD (2 * pos + 1) dfltNE).priority
          < (h.getD (2 * pos + 1 + 1) dfltNE).priority := by
        simpa [NextEvent.ltb] using hltb'
      omega

theorem siftupAux_spec :
    ∀ (fuel : Nat) (h : List NextEvent) (pos : Nat) (h2 : List NextEvent) (p2 : Nat),
      siftupAux NextEvent.ltb dfltNE h.length fuel h pos = (h2, p2) →
      pos < h.length → h.length - pos ≤ fuel →
      (∀ j, j < h.length → 0 < j → j ≠ pos → Par j ≠ pos →
        (h.getD (Par j) dfltNE).priority ≤ (h.getD j dfltNE).priority) →
      (∀ j, j < h.length → Par j = pos → 0 < pos →
        (h.getD (Par pos) dfltNE).priority ≤ (h.getD j dfltNE).priority) →
      h2.length = h.length ∧ p2 < h.length ∧ h.length ≤ 2 * p2 + 1 ∧
      (∀ x, (h2.set p2 x).Perm (h.set pos x)) ∧
      (∀ j, j < h.length → 0 < j → j ≠ p2 → Par j ≠ p2 →
        (h2.getD (Par j) dfltNE).priority ≤ (h2.getD j dfltNE).priority) := by
  intro fuel
  induction fuel with
  | zero =>
    intro h pos h2 p2 _ hpos hfuel _ _
    omega
  | succ fuel ih =>
    intro h pos h2 p2 heq hpos hfuel hA hB
    unfold siftupAux at heq
    by_cases hcp : 2 * pos + 1 < h.length
    · rw [if_pos hcp] at heq
      obtain ⟨hparc, hcpos, hclt, hmin⟩ := siftupChild_spec h pos hcp
      set c := siftupChild NextEvent.ltb dfltNE h.length h pos with hc
      obtain ⟨hA', hB'⟩ := siftupStep h pos c hpos hclt hcpos hparc hmin hA hB
      have hlen' : (h.set pos (h.getD c dfltNE)).length = h.length := by simp
      have heq' : siftupAux NextEvent.ltb dfltNE
          (h.set pos (h.getD c dfltNE)).length fuel
          (h.set pos (h.getD c dfltNE)) c = (h2, p2) := by
        rw [hlen']
        exact heq
      obtain ⟨c1, c2, c3, c4, c5⟩ := ih _ c h2 p2 heq'
        (by rw [hlen']; omega) (by rw [hlen']; omega) hA' hB'
      rw [hlen'] at c1 c2 c3 c5
      refine ⟨c1, c2, c3, ?_, c5⟩
      intro x
      exact (c4 x).trans (set_swap_perm h pos c x dfltNE (by omega) hpos hclt)
    · rw [if_neg hcp] at heq
      cases heq
      exact ⟨rfl, hpos, by omega, fun x => List.Perm.refl _, hA⟩

theorem set_zero_getD (l : List NextEvent) (d : NextEvent) (h : l ≠ []) :
    l.set 0 (l.getD 0 d) = l := by
  cases l with
  | nil => exact absurd rfl h
  | cons x xs => rfl

/-- CPython `_siftup(heap, 0)` restores the heap invariant and permutes the
contents, provided the heap property holds everywhere except at the root. -/
theorem siftup_spec (h0 : List NextEvent) (h0pos : 0 < h0.length)
    (hA : ∀ j, j < h0.length → 0 < j → Par j ≠ 0 →
      (h0.getD (Par j) dfltNE).priority ≤ (h0.getD j dfltNE).priority) :
    IsHeap (siftup NextEvent.ltb dfltNE h0 0) ∧ (siftup NextEvent.ltb dfltNE h0 0).Perm h0 := by
  rcases hres : siftupAux NextEvent.ltb dfltNE h0.length h0.length h0 0 with ⟨h2, p2⟩
  obtain ⟨c1, c2, c3, c4, c5⟩ := siftupAux_spec h0.length h0 0 h2 p2 hres h0pos (by omega)
    (fun j hj hj0 _ hpj => hA j hj hj0 hpj) (fun j _ _ hpos0 => absurd hpos0 (by omega))
  have hunfold : siftup NextEvent.ltb dfltNE h0 0 =
      siftdown NextEvent.ltb dfltNE (h2.set p2 (h0.getD 0 dfltNE)) 0 p2 := by
    unfold siftup
    simp only [hres]
  have hlen3 : (h2.set p2 (h0.getD 0 dfltNE)).length = h0.length := by
    rw [List.length_set, c1]
  have hget3 : (h2.set p2 (h0.getD 0 dfltNE)).getD p2 dfltNE = h0.getD 0 dfltNE :=
    getD_set_self h2 p2 _ dfltNE (by omega)
  constructor
  · rw [hunfold]
    unfold siftdown
    rw [hget3]
    apply siftdownAux_isHeap (h0.getD 0 dfltNE) p2 (h2.set p2 (h0.getD 0 dfltNE)) p2
      (by omega) le_rfl
    · intro j hj hj0 hjp2
      rw [hlen3] at hj
      have hpj2 : Par j ≠ p2 := by
        intro hc
        simp only [Par] at hc
        omega
      rw [getD_set_ne h2 p2 j _ dfltNE (fun hc => hjp2 hc.symm),
        getD_set_ne h2 p2 (Par j) _ dfltNE (fun hc => hpj2 hc.symm)]
      exact c5 j hj hj0 hjp2 hpj2
    · intro j hj hpj _
      exfalso
      rw [hlen3] at hj
      simp only [Par] at hpj
      omega
    · intro j hj hpj hj0
      exfalso
      rw [hlen3] at hj
      simp only [Par] at hpj
      omega
  · rw [hunfold]
    unfold siftdown
    rw [hget3]
    have hperm := siftdownAux_perm (h0.getD 0 dfltNE) p2 (h2.set p2 (h0.getD 0 dfltNE)) p2
      (by omega)
    rw [List.set_set] at hperm
    refine hperm.trans ?_
    refine (c4 (h0.getD 0 dfltNE)).trans ?_
    rw [set_zero_getD h0 dfltNE (by intro hc; rw [hc] at h0pos; simp at h0pos)]

/-- CPython `heapq.heappop` on a non-empty heap: returns the root, which has
minimal priority, and leaves a heap with the remaining contents. -/
theorem heappop_spec (l : List NextEvent) (hne : l ≠ []) (hh : IsHeap l) :
    ∃ l', heappop NextEvent.ltb dfltNE l = some (l.getD 0 dfltNE, l') ∧
      (l.getD 0 dfltNE :: l').Perm l ∧ IsHeap l' ∧
      ∀ b ∈ l, (l.getD 0 dfltNE).priority ≤ b.priority := by
  have hmin : ∀ b ∈ l, (l.getD 0 dfltNE).priority ≤ b.priority := by
    intro b hb
    obtain ⟨i, hi, hgi⟩ := exists_getD_of_mem dfltNE hb
    rw [← hgi]
    exact isHeap_root_le l hh i hi
  have hlast : l.getLast? = some (l.getLast hne) := List.getLast?_eq_getLast l hne
  cases hrest : l.dropLast with
  | nil =>
    have hlsing : l = [l.getLast hne] := by
      conv_lhs => rw [← List.dropLast_append_getLast hne, hrest]
      rfl
    have hget0 : l.getD 0 dfltNE = l.getLast hne := by
      conv_lhs => rw [hlsing]
      rfl
    refine ⟨[], ?_, ?_, ?_, hmin⟩
    · unfold heappop
      rw [hlast]
      simp only
      rw [hrest]
      simp only
      rw [hget0]
    · rw [hget0]
      conv_rhs => rw [hlsing]
    · intro j hj
      simp at hj
  | cons r0 rtail =>
    have hdlen : l.dropLast.length = l.length - 1 := List.length_dropLast l
    have hlen2 : 2 ≤ l.length := by
      have : l.dropLast.length = rtail.length + 1 := by rw [hrest]; rfl
      omega
    have hr0 : r0 = l.getD 0 dfltNE := by
      have h1 : l.dropLast.getD 0 dfltNE = r0 := by rw [hrest]; rfl
      rw [← h1]
      exact getD_dropLast l 0 dfltNE (by omega)
    have hpop : heappop NextEvent.ltb dfltNE l
        = some (r0, siftup NextEvent.ltb dfltNE (l.dropLast.set 0 (l.getLast hne)) 0) := by
      unfold heappop
      rw [hlast]
      simp only
      rw [hrest]
    have hA0 : ∀ j, j < (l.dropLast.set 0 (l.getLast hne)).length → 0 < j → Par j ≠ 0 →
        ((l.dropLast.set 0 (l.getLast hne)).getD (Par j) dfltNE).priority
          ≤ ((l.dropLast.set 0 (l.getLast hne)).getD j dfltNE).priority := by
      intro j hj hj0 hpj
      rw [List.length_set, hdlen] at hj
      have hparj : Par j < j := by simp only [Par]; omega
      rw [getD_set_ne _ 0 j _ dfltNE (by omega), getD_set_ne _ 0 (Par j) _ dfltNE
        (fun hc => hpj hc.symm)]
      rw [getD_dropLast l j dfltNE (by omega), getD_dropLast l (Par j) dfltNE (by omega)]
      exact hh j (by omega) hj0
    obtain ⟨hheap', hperm'⟩ := siftup_spec (l.dropLast.set 0 (l.getLast hne))
      (by rw [List.length_set, hdlen]; omega) hA0
    refine ⟨_, by rw [hpop, hr0], ?_, hheap', hmin⟩
    refine (List.Perm.cons _ hperm').trans ?_
    rw [← hr0]
    have hstep : (r0 :: l.dropLast.set 0 (l.getLast hne)).Perm
        (l.getLast hne :: l.dropLast) := by
      have := perm_set_cons l.dropLast 0 (l.getLast hne) dfltNE (by omega)
      have hg : l.dropLast.getD 0 dfltNE = r0 := by rw [hrest]; rfl
      rw [hg] at this
      exact this
    refine hstep.trans ?_
    refine (List.perm_append_singleton _ _).symm.trans ?_
    rw [List.dropLast_append_getLast hne]

/-! ### MultiFiles: step characterisation lemmas -/

theorem pair_eta_snd {α β : Type} {p : α × β} {e : β} (h : p.2 = e) : p = (p.1, e) := by
  rw [← h]

/-- `__next__` on an empty priority queue: `Empty` is caught and turned into
`StopIteration`. -/
theorem mfNext_empty (st : MFState) (h : st.events = []) :
    mfNext st = (st, Except.error PyErr.stopIteration) := by
  unfold mfNext
  rw [h]
  rfl

/-- The effect of `_load_next_chunk` on the chunk-reading state: the
`_open_files` bookkeeping aside, it advances the chunk counter and, when the
next chunk file exists, installs its events table; the escaping exception is
determined by the chunk lookup. -/
theorem load_next_chunk_fields (st : MFState) (ds : Nat) :
    (load_next_chunk st ds).1.chunks = st.chunks ∧
    (load_next_chunk st ds).1.all_chunks = st.all_chunks ∧
    (load_next_chunk st ds).1.current_chunk
      = Function.update st.current_chunk ds (st.current_chunk ds + 1) ∧
    (match st.chunks ds (st.current_chunk ds + 1) with
     | none => (load_next_chunk st ds).2 = some PyErr.fileNotFoundError ∧
         (load_next_chunk st ds).1.events_tables = st.events_tables ∧
         (load_next_chunk st ds).1.events = st.events
     | some [] => (load_next_chunk st ds).2 = some PyErr.stopIteration ∧
         (load_next_chunk st ds).1.events_tables
           = Function.update st.events_tables ds [] ∧
         (load_next_chunk st ds).1.events = st.events
     | some (e :: rest) => (load_next_chunk st ds).2 = none ∧
         (load_next_chunk st ds).1.events_tables
           = Function.update st.events_tables ds rest ∧
         (load_next_chunk st ds).1.events
           = heappush NextEvent.ltb dfltNE st.events ⟨e.event_id, e, ds⟩) := by
  unfold load_next_chunk
  cases hd : dictGet st.open_files ds with
  | none =>
    simp only
    cases hc : st.chunks ds (st.current_chunk ds + 1) with
    | none => exact ⟨rfl, rfl, rfl, rfl, rfl, rfl⟩
    | some recs =>
      cases recs with
      | nil => exact ⟨rfl, rfl, rfl, rfl, rfl, rfl⟩
      | cons e rest => exact ⟨rfl, rfl, rfl, rfl, rfl, rfl⟩
  | some serial =>
    simp only [fileClose]
    cases hc : st.chunks ds (st.current_chunk ds + 1) with
    | none => exact ⟨rfl, rfl, rfl, rfl, rfl, rfl⟩
    | some recs =>
      cases recs with
      | nil => exact ⟨rfl, rfl, rfl, rfl, rfl, rfl⟩
      | cons e rest => exact ⟨rfl, rfl, rfl, rfl, rfl, rfl⟩

/-- `remSource` only depends on the events table and chunk counter of the
source. -/
theorem remSource_congr (sources : List (List (List Rec))) (st st' : MFState) (ds : Nat)
    (ht : st'.events_tables ds = st.events_tables ds)
    (hc : st'.current_chunk ds = st.current_chunk ds) :
    remSource sources st' ds = remSource sources st ds := by
  unfold remSource
  rw [ht, hc]

theorem drop_flatten_of_get? : ∀ (L : List (List Rec)) (n : Nat) (c : List Rec),
    L.get? n = some c → (L.drop n).flatten = c ++ (L.drop (n + 1)).flatten
  | [], n, c, h => by simp at h
  | a :: L, 0, c, h => by
    simp only [List.get?_cons_zero, Option.some.injEq] at h
    subst h
    simp
  | a :: L, n + 1, c, h => by
    simp only [List.get?_cons_succ] at h
    simpa using drop_flatten_of_get? L n c h

theorem drop_eq_nil_of_get?_none (L : List (List Rec)) (n : Nat)
    (h : L.get? n = none) : L.drop n = [] := by
  rw [List.get?_eq_none] at h
  exact List.drop_eq_nil_of_le h

/-- One `__next__` call under the merge invariant (all chunk files
non-empty): either the queue is empty and the multiplexer signals
exhaustion, or it yields the pending record with minimal `event_id`,
preserves the invariant, and removes exactly that record from the pending
multiset. -/
theorem mergeStep (sources : List (List (List Rec))) (st : MFState)
    (inv : MergeInv sources st)
    (hnec : ∀ ds, ∀ c ∈ srcChunks sources ds, c ≠ []) :
    (st.events = [] ∧ mfNext st = (st, Except.error PyErr.stopIteration)) ∨
    (∃ ne st', mfNext st = (st', Except.ok ne.event) ∧ ne ∈ st.events ∧
      MergeInv sources st' ∧
      pendingIds sources st = ne.event.event_id ::ₘ pendingIds sources st' ∧
      (∀ x ∈ st'.events, ne.event.event_id ≤ x.priority) ∧
      (∀ x ∈ st.events, ne.event.event_id ≤ x.priority)) := by
  by_cases hev : st.events = []
  · exact Or.inl ⟨hev, mfNext_empty st hev⟩
  right
  obtain ⟨l', hpop, hperm, hheap', hmin⟩ := heappop_spec st.events hev inv.heap
  set root := st.events.getD 0 dfltNE with hroot
  have hrootmem : root ∈ st.events := hperm.subset (List.mem_cons_self _ _)
  have hprioroot : root.priority = root.event.event_id := inv.prio root hrootmem
  have hmapperm : (root.data_source :: l'.map NextEvent.data_source).Perm
      (st.events.map NextEvent.data_source) := by
    have := hperm.map NextEvent.data_source
    simpa using this
  have hmapnd : (root.data_source :: l'.map NextEvent.data_source).Nodup :=
    (hmapperm.nodup_iff).mpr inv.nodup
  have hdsnotin : root.data_source ∉ l'.map NextEvent.data_source :=
    (List.nodup_cons.mp hmapnd).1
  have hl'nd : (l'.map NextEvent.data_source).Nodup := (List.nodup_cons.mp hmapnd).2
  have hl'sub : ∀ x ∈ l', x ∈ st.events := fun x hx =>
    hperm.subset (List.mem_cons_of_mem _ hx)
  have hl'ne : ∀ x ∈ l', x.data_source ≠ root.data_source := by
    intro x hx hc
    exact hdsnotin (hc ▸ List.mem_map_of_mem NextEvent.data_source hx)
  have hminid : ∀ x ∈ st.events, root.event.event_id ≤ x.priority := by
    intro x hx
    rw [← hprioroot]
    exact hmin x hx
  have hchainroot := inv.chain root hrootmem
  have hboundtail : ∀ x ∈ l', root.event.event_id ≤ x.priority := fun x hx =>
    hminid x (hl'sub x hx)
  -- the pending multiset decomposes along the pop
  have hpend : pendingIds sources st
      = (((root.event :: remSource sources st root.data_source).map Rec.event_id
          : List Nat) : Multiset Nat)
        + (l'.map fun ne =>
          (((ne.event :: remSource sources st ne.data_source).map Rec.event_id
            : List Nat) : Multiset Nat)).sum := by
    unfold pendingIds
    have := (hperm.map fun ne =>
      (((ne.event :: remSource sources st ne.data_source).map Rec.event_id
        : List Nat) : Multiset Nat)).sum_eq
    rw [← this]
    simp
  cases htab : st.events_tables root.data_source with
  | cons e more =>
    -- fast path: the events table still has records
    have hnext : mfNext st =
        ({ st with
            events_tables := Function.update st.events_tables root.data_source more
            events := heappush NextEvent.ltb dfltNE l'
              ⟨e.event_id, e, root.data_source⟩ },
          Except.ok root.event) := by
      unfold mfNext
      rw [hpop]
      simp only
      rw [htab]
    set st' : MFState :=
      { st with
        events_tables := Function.update st.events_tables root.data_source more
        events := heappush NextEvent.ltb dfltNE l'
          ⟨e.event_id, e, root.data_source⟩ } with hst'
    have hpushperm : st'.events.Perm (⟨e.event_id, e, root.data_source⟩ :: l') :=
      heappush_perm l' _
    have hremroot : remSource sources st root.data_source
        = e :: remSource sources st' root.data_source := by
      unfold remSource
      rw [htab]
      have ht' : st'.events_tables root.data_source = more := by
        rw [hst']
        simp only
        rw [Function.update_same]
      rw [ht']
      rfl
    have hremother : ∀ d, d ≠ root.data_source →
        remSource sources st' d = remSource sources st d := by
      intro d hd
      apply remSource_congr
      · rw [hst']
        simp only
        rw [Function.update_noteq hd]
      · rfl
    have hchainnew : List.Chain' recLE
        (e :: remSource sources st' root.data_source) := by
      have := hchainroot
      rw [hremroot] at this
      exact this.tail
    have hrel : root.event.event_id ≤ e.event_id := by
      have := hchainroot
      rw [hremroot] at this
      exact (List.chain'_cons.mp this).1
    refine ⟨root, st', hnext, hrootmem, ?_, ?_, ?_, hminid⟩
    · refine ⟨inv.chunks_eq, inv.ac, heappush_isHeap l' _ hheap', ?_, ?_, inv.cur_lb,
        ?_, ?_⟩
      · have : (st'.events.map NextEvent.data_source).Perm
            (root.data_source :: l'.map NextEvent.data_source) := by
          simpa using hpushperm.map NextEvent.data_source
        exact this.nodup_iff.mpr hmapnd
      · intro x hx
        rcases List.mem_cons.mp (hpushperm.subset hx) with hx' | hx'
        · rw [hx']
        · exact inv.prio x (hl'sub x hx')
      · intro x hx
        rcases List.mem_cons.mp (hpushperm.subset hx) with hx' | hx'
        · rw [hx']
          exact hchainnew
        · rw [hremother x.data_source (hl'ne x hx')]
          exact inv.chain x (hl'sub x hx')
      · intro d hd
        have hd' : d ∉ (⟨e.event_id, e, root.data_source⟩ :: l' :
            List NextEvent).map NextEvent.data_source := by
          intro hc
          exact hd ((hpushperm.map NextEvent.data_source).mem_iff.mpr hc)
        rw [List.map_cons, List.mem_cons, not_or] at hd'
        obtain ⟨hd1, hd2⟩ := hd'
        rw [hremother d (by simpa using hd1)]
        apply inv.dead
        intro hc
        rcases List.mem_cons.mp (hmapperm.mem_iff.mpr hc) with hc' | hc'
        · exact hd1 (by simpa using hc')
        · exact hd2 hc'
    · rw [hpend, hremroot]
      have hsum' : pendingIds sources st'
          = (((e :: remSource sources st' root.data_source).map Rec.event_id
              : List Nat) : Multiset Nat)
            + (l'.map fun ne =>
              (((ne.event :: remSource sources st ne.data_source).map Rec.event_id
                : List Nat) : Multiset Nat)).sum := by
        unfold pendingIds
        have hp2 := (hpushperm.map fun ne =>
          (((ne.event :: remSource sources st' ne.data_source).map Rec.event_id
            : List Nat) : Multiset Nat)).sum_eq
        rw [hp2]
        rw [List.map_cons, List.sum_cons]
        have hmaps : (l'.map fun ne =>
            (((ne.event :: remSource sources st' ne.data_source).map Rec.event_id
              : List Nat) : Multiset Nat))
            = (l'.map fun ne =>
            (((ne.event :: remSource sources st ne.data_source).map Rec.event_id
              : List Nat) : Multiset Nat)) := by
          apply List.map_congr_left
          intro x hx
          rw [hremother x.data_source (hl'ne x hx)]
        rw [hmaps]
      rw [hsum', List.map_cons, ← Multiset.cons_coe, Multiset.cons_add]
    · intro x hx
      rcases List.mem_cons.mp (hpushperm.subset hx) with hx' | hx'
      · rw [hx']
        exact hrel
      · exact hboundtail x hx'
  | nil =>
    -- `next(events_table)` raises `StopIteration`; rollover
    have hac2 : ({ st with events := l' } : MFState).all_chunks = true := inv.ac
    obtain ⟨hf1, hf2, hf3, hf4⟩ := load_next_chunk_fields { st with events := l' }
      root.data_source
    have hn0 : (0 : Int) ≤ st.current_chunk root.data_source + 1 := by
      have := inv.cur_lb root.data_source
      omega
    have hchunks2 : ({ st with events := l' } : MFState).chunks
        root.data_source (st.current_chunk root.data_source + 1)
        = fsOf sources root.data_source (st.current_chunk root.data_source + 1) := by
      rw [inv.chunks_eq]
    have hremflat : remSource sources st root.data_source
        = ((srcChunks sources root.data_source).drop
            (st.current_chunk root.data_source + 1).toNat).flatten := by
      unfold remSource
      rw [htab]
      rfl
    cases hget : (srcChunks sources root.data_source).get?
        (st.current_chunk root.data_source + 1).toNat with
    | some c =>
      have hcne : c ≠ [] := hnec root.data_source c (List.get?_mem hget)
      cases hc : c with
      | nil => exact absurd hc hcne
      | cons e more =>
        subst hc
        have hfs : fsOf sources root.data_source
            (st.current_chunk root.data_source + 1) = some (e :: more) := by
          unfold fsOf
          rw [if_pos hn0, hget]
        have hsc : st.chunks root.data_source
            (st.current_chunk root.data_source + 1) = some (e :: more) := by
          rw [inv.chunks_eq]
          exact hfs
        simp only [hsc] at hf4
        obtain ⟨herr, htables', hevents'⟩ := hf4
        have hload : load_next_chunk { st with events := l' } root.data_source
            = ((load_next_chunk { st with events := l' } root.data_source).1, none) :=
          pair_eta_snd herr
        have hnext : mfNext st
            = ((load_next_chunk { st with events := l' } root.data_source).1,
              Except.ok root.event) := by
          unfold mfNext
          rw [hpop]
          simp only
          rw [htab, if_pos hac2, hload]
        set st' := (load_next_chunk { st with events := l' } root.data_source).1
          with hst'
        have hev' : st'.events
            = heappush NextEvent.ltb dfltNE l' ⟨e.event_id, e, root.data_source⟩ :=
          hevents'
        have htab' : st'.events_tables
            = Function.update st.events_tables root.data_source more := htables'
        have hcur' : st'.current_chunk
            = Function.update st.current_chunk root.data_source
              (st.current_chunk root.data_source + 1) := hf3
        have hpushperm : st'.events.Perm
            (⟨e.event_id, e, root.data_source⟩ :: l') := by
          rw [hev']
          exact heappush_perm l' _
        have hremroot : remSource sources st root.data_source
            = e :: remSource sources st' root.data_source := by
          unfold remSource
          rw [htab]
          rw [htab', Function.update_same, hcur', Function.update_same]
          have harith : (st.current_chunk root.data_source + 1 + 1).toNat
              = (st.current_chunk root.data_source + 1).toNat + 1 := by omega
          rw [harith,
            drop_flatten_of_get? (srcChunks sources root.data_source) _ _ hget]
          simp
        have hremother : ∀ d, d ≠ root.data_source →
            remSource sources st' d = remSource sources st d := by
          intro d hd
          apply remSource_congr
          · rw [htab', Function.update_noteq hd]
          · rw [hcur', Function.update_noteq hd]
        have hchainnew : List.Chain' recLE
            (e :: remSource sources st' root.data_source) := by
          have := hchainroot
          rw [hremroot] at this
          exact this.tail
        have hrel : root.event.event_id ≤ e.event_id := by
          have := hchainroot
          rw [hremroot] at this
          exact (List.chain'_cons.mp this).1
        refine ⟨root, st', hnext, hrootmem, ?_, ?_, ?_, hminid⟩
        · refine ⟨by rw [hf1, inv.chunks_eq], by rw [hf2]; exact inv.ac, ?_, ?_, ?_,
            ?_, ?_, ?_⟩
          · rw [hev']
            exact heappush_isHeap l' _ hheap'
          · have : (st'.events.map NextEvent.data_source).Perm
                (root.data_source :: l'.map NextEvent.data_source) := by
              simpa using hpushperm.map NextEvent.data_source
            exact this.nodup_iff.mpr hmapnd
          · intro x hx
            rcases List.mem_cons.mp (hpushperm.subset hx) with hx' | hx'
            · rw [hx']
            · exact inv.prio x (hl'sub x hx')
          · intro d
            rw [hcur']
            by_cases hd : d = root.data_source
            · rw [hd, Function.update_same]
              have := inv.cur_lb root.data_source
              omega
            · rw [Function.update_noteq hd]
              exact inv.cur_lb d
          · intro x hx
            rcases List.mem_cons.mp (hpushperm.subset hx) with hx' | hx'
            · rw [hx']
              exact hchainnew
            · rw [hremother x.data_source (hl'ne x hx')]
              exact inv.chain x (hl'sub x hx')
          · intro d hd
            have hd' : d ∉ (⟨e.event_id, e, root.data_source⟩ :: l' :
                List NextEvent).map NextEvent.data_source := by
              intro hc
              exact hd ((hpushperm.map NextEvent.data_source).mem_iff.mpr hc)
            rw [List.map_cons, List.mem_cons, not_or] at hd'
            obtain ⟨hd1, hd2⟩ := hd'
            rw [hremother d (by simpa using hd1)]
            apply inv.dead
            intro hc
            rcases List.mem_cons.mp (hmapperm.mem_iff.mpr hc) with hc' | hc'
            · exact hd1 (by simpa using hc')
            · exact hd2 hc'
        · rw [hpend, hremroot]
          have hsum' : pendingIds sources st'
              = (((e :: remSource sources st' root.data_source).map Rec.event_id
                  : List Nat) : Multiset Nat)
                + (l'.map fun ne =>
                  (((ne.event :: remSource sources st ne.data_source).map Rec.event_id
                    : List Nat) : Multiset Nat)).sum := by
            unfold pendingIds
            have hp2 := (hpushperm.map fun ne =>
              (((ne.event :: remSource sources st' ne.data_source).map Rec.event_id
                : List Nat) : Multiset Nat)).sum_eq
            rw [hp2]
            rw [List.map_cons, List.sum_cons]
            have hmaps : (l'.map fun ne =>
                (((ne.event :: remSource sources st' ne.data_source).map Rec.event_id
                  : List Nat) : Multiset Nat))
                = (l'.map fun ne =>
                (((ne.event :: remSource sources st ne.data_source).map Rec.event_id
                  : List Nat) : Multiset Nat)) := by
              apply List.map_congr_left
              intro x hx
              rw [hremother x.data_source (hl'ne x hx)]
            rw [hmaps]
          rw [hsum', List.map_cons, ← Multiset.cons_coe, Multiset.cons_add]
        · intro x hx
          rcases List.mem_cons.mp (hpushperm.subset hx) with hx' | hx'
          · rw [hx']
            exact hrel
          · exact hboundtail x hx'
    | none =>
      have hfs : fsOf sources root.data_source
          (st.current_chunk root.data_source + 1) = none := by
        unfold fsOf
        rw [if_pos hn0, hget]
      have hsc : st.chunks root.data_source
          (st.current_chunk root.data_source + 1) = none := by
        rw [inv.chunks_eq]
        exact hfs
      simp only [hsc] at hf4
      obtain ⟨herr, htables', hevents'⟩ := hf4
      have hload : load_next_chunk { st with events := l' } root.data_source
          = ((load_next_chunk { st with events := l' } root.data_source).1,
            some PyErr.fileNotFoundError) :=
        pair_eta_snd herr
      have hnext : mfNext st
          = ((load_next_chunk { st with events := l' } root.data_source).1,
            Except.ok root.event) := by
        unfold mfNext
        rw [hpop]
        simp only
        rw [htab, if_pos hac2, hload]
      set st' := (load_next_chunk { st with events := l' } root.data_source).1
        with hst'
      have hev' : st'.events = l' := hevents'
      have htab' : st'.events_tables = st.events_tables := htables'
      have hcur' : st'.current_chunk
          = Function.update st.current_chunk root.data_source
            (st.current_chunk root.data_source + 1) := hf3
      have hdrop : (srcChunks sources root.data_source).drop
          (st.current_chunk root.data_source + 1).toNat = [] :=
        drop_eq_nil_of_get?_none _ _ hget
      have hremrootnil : remSource sources st root.data_source = [] := by
        rw [hremflat, hdrop]
        rfl
      have hremother : ∀ d, d ≠ root.data_source →
          remSource sources st' d = remSource sources st d := by
        intro d hd
        apply remSource_congr
        · rw [htab']
        · rw [hcur', Function.update_noteq hd]
      have hremroot' : remSource sources st' root.data_source = [] := by
        unfold remSource
        rw [htab', htab, hcur', Function.update_same]
        have hlen : (srcChunks sources root.data_source).length
            ≤ (st.current_chunk root.data_source + 1).toNat := by
          rw [← List.get?_eq_none]
          exact hget
        have : (srcChunks sources root.data_source).drop
            (st.current_chunk root.data_source + 1 + 1).toNat = [] := by
          apply List.drop_eq_nil_of_le
          omega
        rw [this]
        rfl
      refine ⟨root, st', hnext, hrootmem, ?_, ?_, ?_, hminid⟩
      · refine ⟨by rw [hf1, inv.chunks_eq], by rw [hf2]; exact inv.ac, ?_, ?_, ?_,
          ?_, ?_, ?_⟩
        · rw [hev']
          exact hheap'
        · rw [hev']
          exact hl'nd
        · intro x hx
          rw [hev'] at hx
          exact inv.prio x (hl'sub x hx)
        · intro d
          rw [hcur']
          by_cases hd : d = root.data_source
          · rw [hd, Function.update_same]
            have := inv.cur_lb root.data_source
            omega
          · rw [Function.update_noteq hd]
            exact inv.cur_lb d
        · intro x hx
          rw [hev'] at hx
          rw [hremother x.data_source (hl'ne x hx)]
          exact inv.chain x (hl'sub x hx)
        · intro d hd
          rw [hev'] at hd
          by_cases hdds : d = root.data_source
          · subst hdds
            exact hremroot'
          · rw [hremother d hdds]
            apply inv.dead
            intro hc
            rcases List.mem_cons.mp (hmapperm.mem_iff.mpr hc) with hc' | hc'
            · exact hdds (by simpa using hc')
            · exact hd hc'
      · rw [hpend, hremrootnil]
        have hsum' : pendingIds sources st'
            = (l'.map fun ne =>
              (((ne.event :: remSource sources st ne.data_source).map Rec.event_id
                : List Nat) : Multiset Nat)).sum := by
          unfold pendingIds
          rw [hev']
          congr 1
          apply List.map_congr_left
          intro x hx
          rw [hremother x.data_source (hl'ne x hx)]
        rw [hsum']
        simp
      · intro x hx
        rw [hev'] at hx
        exact hboundtail x hx

/-- Iterating `__next__` under the merge invariant with enough fuel yields
exactly the pending multiset of `event_id`s, in non-decreasing order, and
drains the priority queue. -/
theorem mergeRun (sources : List (List (List Rec)))
    (hnec : ∀ ds, ∀ c ∈ srcChunks sources ds, c ≠ []) :
    ∀ (fuel : Nat) (st : MFState) (low : Nat), MergeInv sources st →
      (∀ x ∈ st.events, low ≤ x.priority) →
      Multiset.card (pendingIds sources st) < fuel →
      (((mfRun fuel st).1.map Rec.event_id : List Nat) : Multiset Nat)
          = pendingIds sources st ∧
      List.Chain' (· ≤ ·) (low :: (mfRun fuel st).1.map Rec.event_id) ∧
      (mfRun fuel st).2.events = [] := by
  intro fuel
  induction fuel with
  | zero =>
    intro st low _ _ hcard
    omega
  | succ fuel ih =>
    intro st low inv hlow hcard
    rcases mergeStep sources st inv hnec with ⟨hevnil, hnext⟩ |
      ⟨ne, st', hnext, hmem, inv', hpend, hbound', _⟩
    · have hrun : mfRun (fuel + 1) st = ([], st) := by
        unfold mfRun
        rw [hnext]
      rw [hrun]
      have hpend0 : pendingIds sources st = 0 := by
        unfold pendingIds
        rw [hevnil]
        rfl
      exact ⟨by rw [hpend0]; rfl, by simp, hevnil⟩
    · have hrun : mfRun (fuel + 1) st
          = (ne.event :: (mfRun fuel st').1, (mfRun fuel st').2) := by
        conv_lhs => unfold mfRun
        rw [hnext]
      have hcard' : Multiset.card (pendingIds sources st') < fuel := by
        rw [hpend] at hcard
        simp only [Multiset.card_cons] at hcard
        omega
      obtain ⟨ih1, ih2, ih3⟩ := ih st' ne.event.event_id inv' hbound' hcard'
      rw [hrun]
      refine ⟨?_, ?_, ih3⟩
      · simp only [List.map_cons]
        rw [hpend, ← ih1]
        exact (Multiset.cons_coe _ _).symm
      · simp only [List.map_cons]
        refine List.chain'_cons.mpr ⟨?_, ih2⟩
        have h1 := hlow ne hmem
        have h2 := inv.prio ne hmem
        omega

/-- A seeding loop that has already raised keeps its exception. -/
theorem foldl_initStep_err : ∀ (l : List Nat) (st : MFState) (e : PyErr),
    l.foldl initStep (st, some e) = (st, some e)
  | [], _, _ => rfl
  | _ :: l, st, e => by
    simp only [List.foldl_cons]
    exact foldl_initStep_err l st e

/-- The seeding loop of `__init__`, one source at a time: with non-empty
first chunks it raises nothing and seeds each processed source. -/
theorem initFold (sources : List (List (List Rec)))
    (hnec : ∀ ds, ∀ c ∈ srcChunks sources ds, c ≠ []) :
    ∀ (l done : List Nat) (st : MFState), InitMid sources done st →
      (∀ ds ∈ l, srcChunks sources ds ≠ []) →
      (∀ ds ∈ l, ds ∉ done) → l.Nodup →
      (l.foldl initStep (st, none)).2 = none ∧
      InitMid sources (done ++ l) (l.foldl initStep (st, none)).1 := by
  intro l
  induction l with
  | nil =>
    intro done st mid _ _ _
    exact ⟨rfl, by simpa using mid⟩
  | cons ds l ih =>
    intro done st mid hfc hnin hnd
    have hdsdone : ds ∉ done := hnin ds (List.mem_cons_self _ _)
    have hcur0 : st.current_chunk ds = -1 := by
      rw [mid.cur, if_neg hdsdone]
    cases hsrc : srcChunks sources ds with
    | nil => exact absurd hsrc (hfc ds (List.mem_cons_self _ _))
    | cons c0 cs =>
      have hc0ne : c0 ≠ [] := hnec ds c0 (by rw [hsrc]; exact List.mem_cons_self _ _)
      cases hc0 : c0 with
      | nil => exact absurd hc0 hc0ne
      | cons e rest =>
        subst hc0
        obtain ⟨hf1, hf2, hf3, hf4⟩ := load_next_chunk_fields st ds
        have hsc : st.chunks ds (st.current_chunk ds + 1) = some (e :: rest) := by
          rw [mid.chunks_eq, hcur0]
          have h01 : (-1 : Int) + 1 = 0 := by norm_num
          rw [h01]
          unfold fsOf
          rw [if_pos (le_refl (0 : Int)), hsrc]
          rfl
        simp only [hsc] at hf4
        obtain ⟨herr, htab', hev'⟩ := hf4
        have hpair : load_next_chunk st ds = ((load_next_chunk st ds).1, none) :=
          pair_eta_snd herr
        set st1 := (load_next_chunk st ds).1 with hst1
        have hfold : (ds :: l).foldl initStep (st, none) = l.foldl initStep (st1, none) := by
          simp only [List.foldl_cons]
          show l.foldl initStep (initStep (st, none) ds) = _
          have : initStep (st, none) ds = (st1, none) := by
            show load_next_chunk st ds = _
            rw [hpair]
          rw [this]
        have hcur1 : st1.current_chunk
            = Function.update st.current_chunk ds (st.current_chunk ds + 1) := hf3
        have hcurds : st1.current_chunk ds = 0 := by
          rw [hcur1, Function.update_same, hcur0]
          norm_num
        have hpushperm : st1.events.Perm (⟨e.event_id, e, ds⟩ :: st.events) := by
          rw [hev']
          exact heappush_perm st.events _
        have hothers : ∀ x ∈ st.events, x.data_source ≠ ds := by
          intro x hx hc
          apply hdsdone
          rw [← mid.srcs.mem_iff]
          rw [← hc]
          exact List.mem_map_of_mem NextEvent.data_source hx
        have hremother : ∀ d, d ≠ ds → remSource sources st1 d = remSource sources st d := by
          intro d hd
          apply remSource_congr
          · rw [htab', Function.update_noteq hd]
          · rw [hcur1, Function.update_noteq hd]
        have mid1 : InitMid sources (done ++ [ds]) st1 := by
          refine ⟨by rw [hf1]; exact mid.chunks_eq, by rw [hf2]; exact mid.ac, ?_, ?_,
            ?_, ?_, ?_, ?_⟩
          · rw [hev']
            exact heappush_isHeap st.events _ mid.heap
          · have h1 : (st1.events.map NextEvent.data_source).Perm
                (ds :: st.events.map NextEvent.data_source) := by
              simpa using hpushperm.map NextEvent.data_source
            refine h1.trans ?_
            refine ((mid.srcs).cons ds).trans ?_
            exact (List.perm_append_singleton ds done).symm
          · intro x hx
            rcases List.mem_cons.mp (hpushperm.subset hx) with hx' | hx'
            · rw [hx']
            · exact mid.prio x hx'
          · intro x hx
            rcases List.mem_cons.mp (hpushperm.subset hx) with hx' | hx'
            · rw [hx']
              show e :: remSource sources st1 ds = flatSeq sources ds
              unfold remSource
              rw [htab', Function.update_same, hcurds]
              have h1 : ((0 : Int) + 1).toNat = 1 := by norm_num
              rw [h1, hsrc]
              show e :: (rest ++ cs.flatten) = flatSeq sources ds
              unfold flatSeq
              rw [hsrc]
              simp
            · rw [hremother x.data_source (hothers x hx')]
              exact mid.full x hx'
          · intro d
            rw [hcur1]
            by_cases hd : d = ds
            · rw [hd, Function.update_same, hcur0]
              have : d ∈ done ++ [ds] := by
                rw [hd]
                simp
              rw [if_pos (hd ▸ this)]
              norm_num
            · rw [Function.update_noteq hd, mid.cur]
              by_cases hdd : d ∈ done
              · rw [if_pos hdd, if_pos (by simp [hdd])]
              · rw [if_neg hdd, if_neg (by simp [hdd, hd])]
          · intro d hd
            rw [List.mem_append] at hd
            push_neg at hd
            obtain ⟨hd1, hd2⟩ := hd
            have hdne : d ≠ ds := by simpa using hd2
            rw [htab', Function.update_noteq hdne]
            exact mid.tables d hd1
        obtain ⟨ih1, ih2⟩ := ih (done ++ [ds]) st1 mid1
          (fun d hd => hfc d (List.mem_cons_of_mem _ hd))
          (fun d hd => by
            rw [List.mem_append]
            push_neg
            refine ⟨hnin d (List.mem_cons_of_mem _ hd), ?_⟩
            simp only [List.mem_singleton]
            intro hc
            exact (List.nodup_cons.mp hnd).1 (hc ▸ hd))
          (List.nodup_cons.mp hnd).2
        rw [hfold]
        refine ⟨ih1, ?_⟩
        have : done ++ [ds] ++ l = done ++ ds :: l := by simp
        rw [← this]
        exact ih2

theorem card_list_sum : ∀ l : List (Multiset Nat),
    Multiset.card l.sum = (l.map Multiset.card).sum
  | [] => rfl
  | m :: l => by
    simp only [List.sum_cons, List.map_cons, Multiset.card_add]
    rw [card_list_sum l]

/-- `__init__` over a source list whose chunks are all non-empty: no
exception escapes and the seeding loop leaves an `InitMid` state for the
full source range. -/
theorem mfInit_spec (sources : List (List (List Rec)))
    (hk : sources ≠ [])
    (hfirst : ∀ ds, ds < sources.length → srcChunks sources ds ≠ [])
    (hnec : ∀ ds, ∀ c ∈ srcChunks sources ds, c ≠ []) :
    (mfInit sources.length (fsOf sources) true 0).2 = none ∧
    InitMid sources (List.range sources.length)
      (mfInit sources.length (fsOf sources) true 0).1 := by
  have hkne : sources.length ≠ 0 := by
    intro h
    exact hk (List.length_eq_zero.mp h)
  have hm1 : (0 : Int) - 1 = -1 := by norm_num
  have mid0 : InitMid sources []
      { chunks := fsOf sources, all_chunks := true,
        current_chunk := fun _ => (0 : Int) - 1,
        open_files := [], os_open := [], next_handle := 0,
        events_tables := fun _ => [], events := [] } := by
    refine ⟨rfl, rfl, ?_, ?_, ?_, ?_, ?_, ?_⟩
    · intro j hj _
      simp at hj
    · rfl
    · intro ne hne
      simp at hne
    · intro ne hne
      simp at hne
    · intro ds
      rw [if_neg (List.not_mem_nil ds)]
      exact hm1
    · intro _ _
      rfl
  obtain ⟨h1, h2⟩ := initFold sources hnec (List.range sources.length) [] _ mid0
    (fun ds hds => hfirst ds (List.mem_range.mp hds))
    (fun ds _ => List.not_mem_nil ds)
    (List.nodup_range _)
  unfold mfInit
  rw [if_neg hkne]
  exact ⟨h1, by simpa using h2⟩

/-- After the seeding loop the merge invariant holds (given per-source
sortedness) and the pending multiset is the union of all sources. -/
theorem initMid_final (sources : List (List (List Rec)))
    (hsorted : ∀ ds, List.Chain' recLE (flatSeq sources ds))
    (st : MFState)
    (mid : InitMid sources (List.range sources.length) st) :
    MergeInv sources st ∧
    pendingIds sources st
      = ((List.range sources.length).map (sourceIds sources)).sum := by
  constructor
  · refine ⟨mid.chunks_eq, mid.ac, mid.heap, ?_, mid.prio, ?_, ?_, ?_⟩
    · exact mid.srcs.nodup_iff.mpr (List.nodup_range _)
    · intro ds
      rw [mid.cur]
      by_cases h : ds ∈ List.range sources.length
      · rw [if_pos h]
        norm_num
      · rw [if_neg h]
    · intro ne hne
      rw [mid.full ne hne]
      exact hsorted ne.data_source
    · intro ds hds
      have hnr : ds ∉ List.range sources.length := by
        intro hc
        exact hds (mid.srcs.mem_iff.mpr hc)
      have hk : sources.length ≤ ds := by
        by_contra hlt
        exact hnr (List.mem_range.mpr (Nat.lt_of_not_le hlt))
      have hsc : srcChunks sources ds = [] := List.getD_eq_default sources [] hk
      unfold remSource
      rw [mid.tables ds hnr, hsc]
      simp
  · unfold pendingIds
    have hmap : st.events.map (fun ne =>
          (((ne.event :: remSource sources st ne.data_source).map Rec.event_id
            : List Nat) : Multiset Nat))
        = st.events.map (fun ne => sourceIds sources ne.data_source) := by
      apply List.map_congr_left
      intro ne hne
      rw [mid.full ne hne]
      rfl
    rw [hmap]
    have hcomp : st.events.map (fun ne => sourceIds sources ne.data_source)
        = (st.events.map NextEvent.data_source).map (sourceIds sources) := by
      rw [List.map_map]
      rfl
    rw [hcomp]
    exact (mid.srcs.map (sourceIds sources)).sum_eq

/-- C1, corrected.  With rollover enabled (`all_chunks=True`), over sources
whose chunk files all exist and are non-empty and whose own streams are
sorted by `event_id`, the merge is correct: the constructor raises nothing,
iteration yields every record of every source exactly once, globally
non-decreasing in `event_id`, and then raises `StopIteration` with an empty
queue.  (The unqualified spec sentence fails on empty chunk files, see
`C1_counterexample`.) -/
theorem C1_merge_correct (sources : List (List (List Rec))) (k N : Nat)
    (st0 : MFState) (out : List Rec) (stf : MFState)
    (hkp : sources ≠ [])
    (hk : k = sources.length)
    (hfirst : ∀ ds, ds < sources.length → srcChunks sources ds ≠ [])
    (hnec : ∀ ds, ∀ c ∈ srcChunks sources ds, c ≠ [])
    (hsorted : ∀ ds, List.Chain' recLE (flatSeq sources ds))
    (hN : N = ((List.range k).map fun ds => (flatSeq sources ds).length).sum)
    (hinit : mfInit k (fsOf sources) true 0 = (st0, none))
    (hrun : mfRun (N + 1) st0 = (out, stf)) :
    out.length = N ∧
    List.Chain' (· ≤ ·) (out.map Rec.event_id) ∧
    ((out.map Rec.event_id : List Nat) : Multiset Nat)
      = ((List.range k).map (sourceIds sources)).sum ∧
    stf.events = [] ∧
    (mfNext stf).2 = Except.error PyErr.stopIteration := by
  subst hk
  obtain ⟨_, mid⟩ := mfInit_spec sources hkp hfirst hnec
  have hst0 : (mfInit sources.length (fsOf sources) true 0).1 = st0 := by
    rw [hinit]
  rw [hst0] at mid
  obtain ⟨inv, hpend⟩ := initMid_final sources hsorted st0 mid
  have hcard : Multiset.card (pendingIds sources st0) = N := by
    rw [hpend, card_list_sum, List.map_map, hN]
    congr 1
    apply List.map_congr_left
    intro ds _
    simp [sourceIds]
  obtain ⟨hids, hchain, hempty⟩ := mergeRun sources hnec (N + 1) st0 0 inv
    (fun x _ => Nat.zero_le _) (by rw [hcard]; exact Nat.lt_succ_self N)
  rw [hrun] at hids hchain hempty
  dsimp only at hids hchain hempty
  refine ⟨?_, hchain.tail, by rw [hids, hpend], hempty, ?_⟩
  · have := congrArg Multiset.card hids
    simpa [hcard] using this
  · rw [mfNext_empty stf hempty]

theorem C1_merge_correct_witness :
    (mfRun 7 (mfInit 2 (fsOf c1src) true 0).1).1.length = 6 ∧
    List.Chain' (· ≤ ·)
      ((mfRun 7 (mfInit 2 (fsOf c1src) true 0).1).1.map Rec.event_id) ∧
    (((mfRun 7 (mfInit 2 (fsOf c1src) true 0).1).1.map Rec.event_id : List Nat)
        : Multiset Nat)
      = ((List.range 2).map (sourceIds c1src)).sum ∧
    (mfRun 7 (mfInit 2 (fsOf c1src) true 0).1).2.events = [] ∧
    (mfNext (mfRun 7 (mfInit 2 (fsOf c1src) true 0).1).2).2
      = Except.error PyErr.stopIteration := by
  have hnecW : ∀ ds, ∀ c ∈ srcChunks c1src ds, c ≠ [] := by
    intro ds c hc
    by_cases h2 : ds < 2
    · interval_cases ds
      · have : c = [⟨1, 10⟩, ⟨4, 11⟩] ∨ c = [⟨6, 12⟩] := by
          simpa [srcChunks, c1src] using hc
        rcases this with h | h <;> (subst h; decide)
      · have : c = [⟨2, 20⟩, ⟨3, 21⟩] ∨ c = [⟨5, 22⟩] := by
          simpa [srcChunks, c1src] using hc
        rcases this with h | h <;> (subst h; decide)
    · have hlen : c1src.length ≤ ds := by
        simp only [c1src, List.length_cons, List.length_nil]
        omega
      rw [srcChunks, List.getD_eq_default _ _ hlen] at hc
      exact absurd hc (List.not_mem_nil c)
  have hchain3 : ∀ a b c : Rec, recLE a b → recLE b c → List.Chain' recLE [a, b, c] := by
    intro a b c h1 h2
    exact List.chain'_cons.mpr ⟨h1, List.chain'_cons.mpr ⟨h2, List.chain'_singleton _⟩⟩
  have hsortedW : ∀ ds, List.Chain' recLE (flatSeq c1src ds) := by
    intro ds
    by_cases h2 : ds < 2
    · interval_cases ds
      · exact hchain3 _ _ _ (by decide) (by decide)
      · exact hchain3 _ _ _ (by decide) (by decide)
    · have hlen : c1src.length ≤ ds := by
        simp only [c1src, List.length_cons, List.length_nil]
        omega
      rw [flatSeq, srcChunks, List.getD_eq_default _ _ hlen]
      simp
  exact C1_merge_correct c1src 2 6 (mfInit 2 (fsOf c1src) true 0).1
    (mfRun 7 (mfInit 2 (fsOf c1src) true 0).1).1
    (mfRun 7 (mfInit 2 (fsOf c1src) true 0).1).2
    (List.cons_ne_nil _ _) rfl (by decide) hnecW hsortedW (by decide)
    (pair_eta_snd (by decide)) rfl

/-- C3, corrected.  Queue entries are ordered by `priority` (the
`event_id`) alone — `NextEvent` is a `dataclass(order=True)` whose only
comparable field is `priority` — so whenever `__next__` yields a record it
is one of minimal `event_id` among the pending entries; but equal-priority
entries are popped in `heapq` layout order, not discovery order (see
`C3_counterexample`), so the tie order is merely unspecified, not
discovery-order determinism. -/
theorem C3_pop_min (st st' : MFState) (e : Rec)
    (hheap : IsHeap st.events)
    (h : mfNext st = (st', Except.ok e)) :
    ∃ ne ∈ st.events, ne.event = e ∧
      ∀ x ∈ st.events, ne.priority ≤ x.priority := by
  by_cases hev : st.events = []
  · rw [mfNext_empty st hev] at h
    have := congrArg Prod.snd h
    simp at this
  · obtain ⟨l', hpop, hperm, hh', hmin⟩ := heappop_spec st.events hev hheap
    refine ⟨st.events.getD 0 dfltNE, hperm.subset (List.mem_cons_self _ _), ?_, hmin⟩
    unfold mfNext at h
    rw [hpop] at h
    simp only at h
    cases htab : st.events_tables (st.events.getD 0 dfltNE).data_source with
    | cons e0 more =>
      rw [htab] at h
      have := congrArg Prod.snd h
      simpa using this
    | nil =>
      rw [htab] at h
      by_cases hac : ({st with events := l'} : MFState).all_chunks = true
      · rw [if_pos hac] at h
        rcases hload : load_next_chunk { st with events := l' }
            (st.events.getD 0 dfltNE).data_source with ⟨sL, err⟩
        rw [hload] at h
        cases err with
        | none =>
          have := congrArg Prod.snd h
          simpa using this
        | some pe =>
          cases pe with
          | fileNotFoundError =>
            have := congrArg Prod.snd h
            simpa using this
          | stopIteration =>
            have := congrArg Prod.snd h
            simp at this
          | valueError =>
            have := congrArg Prod.snd h
            simp at this
          | keyError =>
            have := congrArg Prod.snd h
            simp at this
      · rw [if_neg hac] at h
        have := congrArg Prod.snd h
        simpa using this

theorem C3_pop_min_witness :
    ∃ ne ∈ stC3w.events, ne.event = (⟨5, 50⟩ : Rec) ∧
      ∀ x ∈ stC3w.events, ne.priority ≤ x.priority :=
  C3_pop_min stC3w (mfNext stC3w).1 ⟨5, 50⟩ (by decide)
    (pair_eta_snd (by decide))

/-- C5, corrected.  Opening a `MultiFiles` over sources whose chunk files
exist and are non-empty opens one stream per source and seeds the priority
queue with exactly one entry per discovered source — each carrying that
source's first record, with the `event_id` as priority.  A source whose
first chunk holds no record is NOT skipped: the `StopIteration` of
`next(events_table)` escapes `_load_next_chunk` and the constructor (see
`C5_counterexample`). -/
theorem C5_seed_or_escape :
    (∀ sources : List (List (List Rec)),
       sources ≠ [] →
       (∀ ds, ds < sources.length → srcChunks sources ds ≠ []) →
       (∀ ds, ds < sources.length → ∀ c ∈ srcChunks sources ds, c ≠ []) →
       (mfInit sources.length (fsOf sources) true 0).2 = none ∧
       ((mfInit sources.length (fsOf sources) true 0).1.events.map
           NextEvent.data_source).Perm (List.range sources.length) ∧
       ∀ ne ∈ (mfInit sources.length (fsOf sources) true 0).1.events,
         ne.priority = ne.event.event_id ∧
         ∃ t, flatSeq sources ne.data_source = ne.event :: t) ∧
    (∀ k : Nat, ∀ chunks : Nat → Int → Option (List Rec),
       k ≠ 0 → chunks 0 0 = some [] →
       ∃ st, mfInit k chunks true 0 = (st, some PyErr.stopIteration)) := by
  constructor
  · intro sources hk hfirst hnecb
    have hnec : ∀ ds, ∀ c ∈ srcChunks sources ds, c ≠ [] := by
      intro ds c hc
      by_cases hds : ds < sources.length
      · exact hnecb ds hds c hc
      · rw [srcChunks, List.getD_eq_default sources [] (Nat.le_of_not_lt hds)] at hc
        exact absurd hc (List.not_mem_nil c)
    obtain ⟨h1, mid⟩ := mfInit_spec sources hk hfirst hnec
    refine ⟨h1, mid.srcs, ?_⟩
    intro ne hne
    refine ⟨mid.prio ne hne, remSource sources
      (mfInit sources.length (fsOf sources) true 0).1 ne.data_source, ?_⟩
    exact (mid.full ne hne).symm
  · intro k chunks hk h00
    obtain ⟨k', rfl⟩ := Nat.exists_eq_succ_of_ne_zero hk
    unfold mfInit
    rw [if_neg hk]
    rw [List.range_succ_eq_map]
    simp only [List.foldl_cons]
    set st0 : MFState :=
      { chunks := chunks, all_chunks := true,
        current_chunk := fun _ => (0 : Int) - 1,
        open_files := [], os_open := [], next_handle := 0,
        events_tables := fun _ => [], events := [] } with hst0
    have hstep : initStep (st0, none) 0 = load_next_chunk st0 0 := rfl
    obtain ⟨_, _, _, hf4⟩ := load_next_chunk_fields st0 0
    have hsc : chunks 0 ((0 : Int) - 1 + 1) = some [] := by
      have h01 : (0 : Int) - 1 + 1 = 0 := by norm_num
      rw [h01]
      exact h00
    simp only [hsc] at hf4
    obtain ⟨herr, _, _⟩ := hf4
    rw [hstep, pair_eta_snd herr]
    rw [foldl_initStep_err]
    exact ⟨_, rfl⟩

theorem C5_seed_or_escape_witness :
    ((mfInit 2 (fsOf c1src) true 0).2 = none ∧
     ((mfInit 2 (fsOf c1src) true 0).1.events.map
         NextEvent.data_source).Perm (List.range 2) ∧
     ∀ ne ∈ (mfInit 2 (fsOf c1src) true 0).1.events,
       ne.priority = ne.event.event_id ∧
       ∃ t, flatSeq c1src ne.data_source = ne.event :: t) ∧
    (∃ st, mfInit 1 fsEmptyFirst true 0 = (st, some PyErr.stopIteration)) := by
  constructor
  · exact C5_seed_or_escape.1 c1src (List.cons_ne_nil _ _) (by decide) (by decide)
  · exact C5_seed_or_escape.2 1 fsEmptyFirst (by decide) (by decide)

/-- A key absent from the association list is not found. -/
theorem dictGet_eq_none {β : Type} (d : List (Nat × β)) (k : Nat)
    (h : k ∉ d.map Prod.fst) : dictGet d k = none := by
  induction d with
  | nil => rfl
  | cons p t ih =>
    rw [List.map_cons, List.mem_cons] at h
    push_neg at h
    obtain ⟨h1, h2⟩ := h
    unfold dictGet
    rw [List.find?_cons_of_neg]
    · exact ih h2
    · simp
      intro hc
      exact h1 hc.symm

/-- With unique keys, `dict.pop(k)` really removes `k`. -/
theorem dictGet_dictRemove {β : Type} (d : List (Nat × β)) (k : Nat)
    (h : (d.map Prod.fst).Nodup) : dictGet (dictRemove d k) k = none := by
  induction d with
  | nil => rfl
  | cons p t ih =>
    rw [List.map_cons, List.nodup_cons] at h
    obtain ⟨hnotin, hnd⟩ := h
    unfold dictRemove
    by_cases hk : p.1 = k
    · have hb : decide (p.1 = k) = true := decide_eq_true hk
      rw [List.eraseP_cons, hb, cond_true]
      exact dictGet_eq_none t k (hk ▸ hnotin)
    · have hb : decide (p.1 = k) = false := decide_eq_false hk
      rw [List.eraseP_cons, hb, cond_false]
      unfold dictGet
      rw [List.find?_cons_of_neg]
      · exact ih hnd
      · simp [hk]

/-- A rollover that finds no next chunk file leaves no open file for the
source: the old handle was popped from `_open_files` and no new one was
opened. -/
theorem load_next_chunk_removes (st : MFState) (ds : Nat)
    (hnd : (st.open_files.map Prod.fst).Nodup)
    (hchunk : st.chunks ds (st.current_chunk ds + 1) = none) :
    dictGet (load_next_chunk st ds).1.open_files ds = none := by
  unfold load_next_chunk
  cases hd : dictGet st.open_files ds with
  | none =>
    simp only
    rw [hchunk]
    exact hd
  | some serial =>
    simp only [fileClose]
    rw [hchunk]
    exact dictGet_dictRemove st.open_files ds hnd

/-- Once no queue entry refers to a data source, `__next__` never creates
one: the only entries it pushes carry the data source it just popped. -/
theorem mfNext_no_new_source (st : MFState) (ds : Nat)
    (hheap : IsHeap st.events)
    (h : ∀ x ∈ st.events, x.data_source ≠ ds) :
    ∀ y ∈ (mfNext st).1.events, y.data_source ≠ ds := by
  by_cases hev : st.events = []
  · rw [mfNext_empty st hev]
    exact h
  obtain ⟨l', hpop, hperm, hheap', _⟩ := heappop_spec st.events hev hheap
  set root := st.events.getD 0 dfltNE with hroot
  have hrootmem : root ∈ st.events := hperm.subset (List.mem_cons_self _ _)
  have hl'sub : ∀ x ∈ l', x ∈ st.events := fun x hx =>
    hperm.subset (List.mem_cons_of_mem _ hx)
  unfold mfNext
  rw [hpop]
  simp only
  cases htab : st.events_tables root.data_source with
  | cons e more =>
    intro y hy
    simp only at hy
    rcases List.mem_cons.mp ((heappush_perm l' _).subset hy) with hy' | hy'
    · rw [hy']
      exact h root hrootmem
    · exact h y (hl'sub y hy')
  | nil =>
    by_cases hac : ({ st with events := l' } : MFState).all_chunks = true
    · rw [if_pos hac]
      obtain ⟨_, _, _, hf4⟩ := load_next_chunk_fields { st with events := l' }
        root.data_source
      rcases hload : load_next_chunk { st with events := l' } root.data_source
        with ⟨sL, err⟩
      rw [hload] at hf4
      cases hsc : st.chunks root.data_source (st.current_chunk root.data_source + 1)
        with
      | none =>
        rw [hsc] at hf4
        obtain ⟨_, _, hevL⟩ := hf4
        have hev' : sL.events = l' := hevL
        cases err with
        | none =>
          intro y hy
          rw [hev'] at hy
          exact h y (hl'sub y hy)
        | some pe =>
          cases pe <;>
            (intro y hy
             rw [hev'] at hy
             exact h y (hl'sub y hy))
      | some recs =>
        cases recs with
        | nil =>
          rw [hsc] at hf4
          obtain ⟨_, _, hevL⟩ := hf4
          have hev' : sL.events = l' := hevL
          cases err with
          | none =>
            intro y hy
            rw [hev'] at hy
            exact h y (hl'sub y hy)
          | some pe =>
            cases pe <;>
              (intro y hy
               rw [hev'] at hy
               exact h y (hl'sub y hy))
        | cons e more2 =>
          rw [hsc] at hf4
          obtain ⟨_, _, hevL⟩ := hf4
          have hev' : sL.events
              = heappush NextEvent.ltb dfltNE l' ⟨e.event_id, e, root.data_source⟩ :=
            hevL
          have hmem : ∀ y ∈ sL.events, y.data_source ≠ ds := by
            intro y hy
            rw [hev'] at hy
            rcases List.mem_cons.mp ((heappush_perm l' _).subset hy) with hy' | hy'
            · rw [hy']
              exact h root hrootmem
            · exact h y (hl'sub y hy')
          cases err with
          | none => exact hmem
          | some pe => cases pe <;> exact hmem
    · rw [if_neg hac]
      intro y hy
      simp only at hy
      exact h y (hl'sub y hy)

/-- C6, confirmed.  When a popped source's events table is drained with
rollover enabled and no next chunk file exists, `__next__` still yields the
popped record (the `FileNotFoundError` of `_load_next_chunk` is swallowed),
the source keeps no queue entry and no open file; `__next__` never creates
an entry for a source that has none, and once the queue is empty `__next__`
raises `StopIteration` — an ordinary end-of-iteration signal, not an
escaping error. -/
theorem C6_rollover_exhaustion :
    (∀ (st : MFState) (ne : NextEvent) (rest : List NextEvent),
       IsHeap st.events →
       (st.events.map NextEvent.data_source).Nodup →
       (st.open_files.map Prod.fst).Nodup →
       heappop NextEvent.ltb dfltNE st.events = some (ne, rest) →
       st.events_tables ne.data_source = [] →
       st.all_chunks = true →
       st.chunks ne.data_source (st.current_chunk ne.data_source + 1) = none →
       ∃ st', mfNext st = (st', Except.ok ne.event) ∧
         st'.events = rest ∧
         (∀ x ∈ st'.events, x.data_source ≠ ne.data_source) ∧
         dictGet st'.open_files ne.data_source = none) ∧
    (∀ st : MFState, st.events = [] →
       mfNext st = (st, Except.error PyErr.stopIteration)) ∧
    (∀ (st : MFState) (ds : Nat), IsHeap st.events →
       (∀ x ∈ st.events, x.data_source ≠ ds) →
       ∀ y ∈ (mfNext st).1.events, y.data_source ≠ ds) := by
  refine ⟨?_, mfNext_empty, mfNext_no_new_source⟩
  intro st ne rest hheap hndev hndof hpop htab hac hchunk
  have hev : st.events ≠ [] := by
    intro hc
    rw [hc] at hpop
    exact Option.noConfusion hpop
  obtain ⟨l', hpop', hperm, hheap', hmin⟩ := heappop_spec st.events hev hheap
  rw [hpop'] at hpop
  injection hpop with hpair
  injection hpair with hne hrest
  subst hne
  subst hrest
  set root := st.events.getD 0 dfltNE with hroot
  have hac2 : ({ st with events := l' } : MFState).all_chunks = true := hac
  obtain ⟨hf1, hf2, hf3, hf4⟩ := load_next_chunk_fields { st with events := l' }
    root.data_source
  simp only [hchunk] at hf4
  obtain ⟨herr, htab2, hev2⟩ := hf4
  have hload : load_next_chunk { st with events := l' } root.data_source
      = ((load_next_chunk { st with events := l' } root.data_source).1,
        some PyErr.fileNotFoundError) := pair_eta_snd herr
  have hnext : mfNext st
      = ((load_next_chunk { st with events := l' } root.data_source).1,
        Except.ok root.event) := by
    unfold mfNext
    rw [hpop']
    simp only
    rw [htab, if_pos hac2, hload]
  refine ⟨_, hnext, hev2, ?_, ?_⟩
  · have hmapperm : (root.data_source :: l'.map NextEvent.data_source).Perm
        (st.events.map NextEvent.data_source) := by
      have := hperm.map NextEvent.data_source
      simpa using this
    have hmapnd : (root.data_source :: l'.map NextEvent.data_source).Nodup :=
      (hmapperm.nodup_iff).mpr hndev
    have hdsnotin : root.data_source ∉ l'.map NextEvent.data_source :=
      (List.nodup_cons.mp hmapnd).1
    intro x hx hc
    rw [hev2] at hx
    exact hdsnotin (hc ▸ List.mem_map_of_mem NextEvent.data_source hx)
  · exact load_next_chunk_removes { st with events := l' } root.data_source
      hndof hchunk

theorem C6_rollover_exhaustion_witness :
    ∃ st', mfNext stC6w = (st', Except.ok (⟨5, 50⟩ : Rec)) ∧
      st'.events = [⟨7, ⟨7, 70⟩, 1⟩] ∧
      (∀ x ∈ st'.events, x.data_source ≠ 0) ∧
      dictGet st'.open_files 0 = none :=
  C6_rollover_exhaustion.1 stC6w ⟨5, ⟨5, 50⟩, 0⟩ [⟨7, ⟨7, 70⟩, 1⟩]
    (by decide) (by decide) (by decide) (by decide) (by decide) (by decide)
    (by decide)

/-- `close()` only touches the OS-open handle list. -/
theorem foldl_fileClose (l : List (Nat × Nat)) : ∀ st : MFState,
    l.foldl (fun s p => fileClose s p.2) st
      = { st with os_open := closeSerials l st.os_open } := by
  induction l with
  | nil =>
    intro st
    rfl
  | cons p t ih =>
    intro st
    simp only [List.foldl_cons]
    rw [ih (fileClose st p.2)]
    rfl

theorem closeSerials_filter (l : List (Nat × Nat)) (q : Nat × Nat → Bool) :
    ∀ os : List (Nat × Nat),
      (closeSerials l os).filter q = closeSerials l (os.filter q) := by
  induction l with
  | nil =>
    intro os
    rfl
  | cons a t ih =>
    intro os
    show (closeSerials t (os.filter fun r => r.2 ≠ a.2)).filter q
      = closeSerials t ((os.filter q).filter fun r => r.2 ≠ a.2)
    rw [ih]
    congr 1
    rw [List.filter_filter, List.filter_filter]
    apply List.filter_congr
    intro r _
    exact Bool.and_comm _ _

theorem closeSerials_idem (l : List (Nat × Nat)) :
    ∀ os : List (Nat × Nat),
      closeSerials l (closeSerials l os) = closeSerials l os := by
  induction l with
  | nil =>
    intro os
    rfl
  | cons a t ih =>
    intro os
    show closeSerials t ((closeSerials t (os.filter fun r => r.2 ≠ a.2)).filter
        fun r => r.2 ≠ a.2)
      = closeSerials t (os.filter fun r => r.2 ≠ a.2)
    rw [closeSerials_filter]
    have hff : ((os.filter fun r => r.2 ≠ a.2).filter fun r => r.2 ≠ a.2)
        = os.filter fun r => r.2 ≠ a.2 := by
      rw [List.filter_filter]
      apply List.filter_congr
      intro r _
      exact Bool.and_self _
    rw [hff, ih]

/-- The record (or exception) produced by `__next__` does not depend on the
OS-open handle list. -/
theorem mfNext_snd_congr (st : MFState) (os' : List (Nat × Nat)) :
    (mfNext { st with os_open := os' }).2 = (mfNext st).2 := by
  unfold mfNext
  cases hpop : heappop NextEvent.ltb dfltNE st.events with
  | none => rfl
  | some p =>
    rcases p with ⟨ne, rest⟩
    simp only
    cases htab : st.events_tables ne.data_source with
    | cons e more => rfl
    | nil =>
      by_cases hac : st.all_chunks = true
      · rw [if_pos hac, if_pos hac]
        obtain ⟨_, _, _, hfA⟩ := load_next_chunk_fields
          { st with os_open := os', events := rest } ne.data_source
        obtain ⟨_, _, _, hfB⟩ := load_next_chunk_fields
          { st with events := rest } ne.data_source
        rcases hsc : st.chunks ne.data_source (st.current_chunk ne.data_source + 1)
          with _ | ⟨_ | ⟨e, more2⟩⟩
        · simp only [hsc] at hfA hfB
          rw [pair_eta_snd hfA.1, pair_eta_snd hfB.1]
        · simp only [hsc] at hfA hfB
          rw [pair_eta_snd hfA.1, pair_eta_snd hfB.1]
        · simp only [hsc] at hfA hfB
          rw [pair_eta_snd hfA.1, pair_eta_snd hfB.1]
      · rw [if_neg hac, if_neg hac]

/-- C9, corrected.  `close()` is idempotent and raises nothing (it is a
total function of the state), but it leaves `_open_files`, the events
tables and the priority queue untouched, so `__next__` after `close()`
behaves exactly as before the close — yielding further records while
entries are pending — instead of signalling end of iteration (see
`C9_counterexample`). -/
theorem C9_close_idempotent_next_unchanged :
    (∀ st : MFState, mfClose (mfClose st) = mfClose st) ∧
    (∀ st : MFState,
       (mfClose st).events = st.events ∧
       (mfClose st).events_tables = st.events_tables ∧
       (mfClose st).open_files = st.open_files ∧
       (mfNext (mfClose st)).2 = (mfNext st).2) := by
  have hcl : ∀ st : MFState,
      mfClose st = { st with os_open := closeSerials st.open_files st.os_open } :=
    fun st => foldl_fileClose st.open_files st
  constructor
  · intro st
    rw [hcl st, hcl { st with
      os_open := closeSerials st.open_files st.os_open }]
    simp only
    rw [closeSerials_idem]
  · intro st
    rw [hcl st]
    exact ⟨rfl, rfl, rfl, mfNext_snd_congr st _⟩

/-- With unique keys a stored entry is found by lookup. -/
theorem dictGet_of_mem {β : Type} : ∀ {d : List (Nat × β)} {p : Nat × β},
    (d.map Prod.fst).Nodup → p ∈ d → dictGet d p.1 = some p.2 := by
  intro d
  induction d with
  | nil =>
    intro p _ hp
    exact absurd hp (List.not_mem_nil p)
  | cons q t ih =>
    intro p hnd hp
    rw [List.map_cons, List.nodup_cons] at hnd
    obtain ⟨hqnot, hnd'⟩ := hnd
    rcases List.mem_cons.mp hp with h | h
    · subst h
      unfold dictGet
      rw [List.find?_cons_of_pos]
      · rfl
      · simp
    · have hne : q.1 ≠ p.1 := by
        intro hc
        exact hqnot (hc ▸ List.mem_map_of_mem Prod.fst h)
      unfold dictGet
      rw [List.find?_cons_of_neg]
      · exact ih hnd' h
      · simp [hne]

/-- An entry with a different key survives `dict.pop(k)`. -/
theorem mem_dictRemove_of_ne {β : Type} (d : List (Nat × β)) (k : Nat) :
    ∀ p : Nat × β, p ∈ d → p.1 ≠ k → p ∈ dictRemove d k := by
  induction d with
  | nil =>
    intro p hp _
    exact absurd hp (List.not_mem_nil p)
  | cons q t ih =>
    intro p hp hne
    unfold dictRemove
    by_cases hq : q.1 = k
    · have hb : decide (q.1 = k) = true := decide_eq_true hq
      rw [List.eraseP_cons, hb, cond_true]
      rcases List.mem_cons.mp hp with h | h
      · subst h
        exact absurd hq hne
      · exact h
    · have hb : decide (q.1 = k) = false := decide_eq_false hq
      rw [List.eraseP_cons, hb, cond_false]
      rcases List.mem_cons.mp hp with h | h
      · rw [h]
        exact List.mem_cons_self _ _
      · exact List.mem_cons_of_mem _ (ih p h hne)

/-- With unique keys, after `dict.pop(k)` the key `k` is gone. -/
theorem not_mem_keys_dictRemove {β : Type} (d : List (Nat × β)) (k : Nat)
    (h : (d.map Prod.fst).Nodup) : k ∉ (dictRemove d k).map Prod.fst := by
  intro hmem
  obtain ⟨p, hp, hpk⟩ := List.mem_map.mp hmem
  have hsub : List.Sublist ((dictRemove d k).map Prod.fst) (d.map Prod.fst) :=
    (List.eraseP_sublist _).map Prod.fst
  have hnd' : ((dictRemove d k).map Prod.fst).Nodup := List.Nodup.sublist hsub h
  have hg := dictGet_of_mem hnd' hp
  rw [hpk] at hg
  rw [dictGet_dictRemove d k h] at hg
  cases hg

/-- Setting an absent key appends the entry (Python dicts keep insertion
order). -/
theorem dictSet_append {β : Type} (d : List (Nat × β)) (k : Nat) (v : β)
    (h : k ∉ d.map Prod.fst) : dictSet d k v = d ++ [(k, v)] := by
  unfold dictSet
  rw [if_neg]
  intro hc
  rw [List.any_eq_true] at hc
  obtain ⟨p, hp, hpk⟩ := hc
  rw [decide_eq_true_eq] at hpk
  exact h (hpk ▸ List.mem_map_of_mem Prod.fst hp)

/-- Opening a fresh file for a source that currently has none preserves the
handle bookkeeping facts. -/
theorem handleInv_stage (ofl os : List (Nat × Nat)) (nh ds : Nat)
    (h1 : (ofl.map Prod.fst).Nodup) (h2 : ∀ p ∈ os, p ∈ ofl)
    (h3 : (os.map Prod.fst).Nodup) (h4 : (os.map Prod.snd).Nodup)
    (h5 : ∀ p ∈ os, p.2 < nh) (h6 : ∀ p ∈ ofl, p.2 < nh)
    (hds : ds ∉ ofl.map Prod.fst) :
    ((dictSet ofl ds nh).map Prod.fst).Nodup ∧
    (∀ p ∈ os ++ [(ds, nh)], p ∈ dictSet ofl ds nh) ∧
    ((os ++ [(ds, nh)]).map Prod.fst).Nodup ∧
    ((os ++ [(ds, nh)]).map Prod.snd).Nodup ∧
    (∀ p ∈ os ++ [(ds, nh)], p.2 < nh + 1) ∧
    (∀ p ∈ dictSet ofl ds nh, p.2 < nh + 1) := by
  have hset := dictSet_append ofl ds nh hds
  have hosk : ds ∉ os.map Prod.fst := by
    intro hc
    obtain ⟨p, hp, hpk⟩ := List.mem_map.mp hc
    exact hds (hpk ▸ List.mem_map_of_mem Prod.fst (h2 p hp))
  refine ⟨?_, ?_, ?_, ?_, ?_, ?_⟩
  · rw [hset, List.map_append, List.nodup_append]
    refine ⟨h1, List.nodup_singleton _, ?_⟩
    intro a ha hb
    simp at hb
    subst hb
    exact hds ha
  · rw [hset]
    intro p hp
    rcases List.mem_append.mp hp with h | h
    · exact List.mem_append_left _ (h2 p h)
    · exact List.mem_append_right _ h
  · rw [List.map_append, List.nodup_append]
    refine ⟨h3, List.nodup_singleton _, ?_⟩
    intro a ha hb
    simp at hb
    subst hb
    exact hosk ha
  · rw [List.map_append, List.nodup_append]
    refine ⟨h4, List.nodup_singleton _, ?_⟩
    intro a ha hb
    simp at hb
    subst hb
    obtain ⟨p, hp, hpk⟩ := List.mem_map.mp ha
    have := h5 p hp
    omega
  · intro p hp
    rcases List.mem_append.mp hp with h | h
    · have := h5 p h
      omega
    · simp at h
      rw [h]
      exact Nat.lt_succ_self nh
  · rw [hset]
    intro p hp
    rcases List.mem_append.mp hp with h | h
    · have := h6 p h
      omega
    · simp at h
      rw [h]
      exact Nat.lt_succ_self nh

/-- `_load_next_chunk` preserves the handle bookkeeping invariant: the old
handle of the source is closed and removed before at most one new one is
opened with a fresh serial. -/
theorem load_next_chunk_handleInv (st : MFState) (ds : Nat) (hinv : HandleInv st) :
    HandleInv (load_next_chunk st ds).1 := by
  unfold load_next_chunk
  cases hd : dictGet st.open_files ds with
  | none =>
    simp only
    have hdsnot : ds ∉ st.open_files.map Prod.fst := by
      intro hc
      obtain ⟨p, hp, hpk⟩ := List.mem_map.mp hc
      have hg := dictGet_of_mem hinv.ofnd hp
      rw [hpk, hd] at hg
      cases hg
    cases hc : st.chunks ds (st.current_chunk ds + 1) with
    | none =>
      exact ⟨hinv.ofnd, hinv.sub, hinv.osnd, hinv.serial_nd, hinv.os_lt, hinv.of_lt⟩
    | some recs =>
      obtain ⟨g1, g2, g3, g4, g5, g6⟩ := handleInv_stage st.open_files st.os_open
        st.next_handle ds hinv.ofnd hinv.sub hinv.osnd hinv.serial_nd hinv.os_lt
        hinv.of_lt hdsnot
      cases recs with
      | nil => exact ⟨g1, g2, g3, g4, g5, g6⟩
      | cons e rest => exact ⟨g1, g2, g3, g4, g5, g6⟩
  | some serial =>
    simp only [fileClose]
    have hofA : ((dictRemove st.open_files ds).map Prod.fst).Nodup := by
      have hsub : List.Sublist ((dictRemove st.open_files ds).map Prod.fst)
          (st.open_files.map Prod.fst) := (List.eraseP_sublist _).map Prod.fst
      exact List.Nodup.sublist hsub hinv.ofnd
    have hdsnotA : ds ∉ (dictRemove st.open_files ds).map Prod.fst :=
      not_mem_keys_dictRemove st.open_files ds hinv.ofnd
    have hsubA : ∀ p ∈ st.os_open.filter (fun p => p.2 ≠ serial),
        p ∈ dictRemove st.open_files ds := by
      intro p hp
      have hpos : p ∈ st.os_open := List.mem_of_mem_filter hp
      have hpser : p.2 ≠ serial := by
        have := List.of_mem_filter hp
        simpa using this
      have hpof : p ∈ st.open_files := hinv.sub p hpos
      have hpk : p.1 ≠ ds := by
        intro hc
        have hg := dictGet_of_mem hinv.ofnd hpof
        rw [hc, hd] at hg
        injection hg with hv
        exact hpser hv.symm
      exact mem_dictRemove_of_ne st.open_files ds p hpof hpk
    have hosndA : ((st.os_open.filter (fun p => p.2 ≠ serial)).map Prod.fst).Nodup :=
      List.Nodup.sublist ((List.filter_sublist _).map Prod.fst) hinv.osnd
    have hserA : ((st.os_open.filter (fun p => p.2 ≠ serial)).map Prod.snd).Nodup :=
      List.Nodup.sublist ((List.filter_sublist _).map Prod.snd) hinv.serial_nd
    have hosltA : ∀ p ∈ st.os_open.filter (fun p => p.2 ≠ serial),
        p.2 < st.next_handle :=
      fun p hp => hinv.os_lt p (List.mem_of_mem_filter hp)
    have hofltA : ∀ p ∈ dictRemove st.open_files ds, p.2 < st.next_handle :=
      fun p hp => hinv.of_lt p ((List.eraseP_sublist _).subset hp)
    cases hc : st.chunks ds (st.current_chunk ds + 1) with
    | none =>
      exact ⟨hofA, hsubA, hosndA, hserA, hosltA, hofltA⟩
    | some recs =>
      obtain ⟨g1, g2, g3, g4, g5, g6⟩ := handleInv_stage
        (dictRemove st.open_files ds)
        (st.os_open.filter (fun p => p.2 ≠ serial)) st.next_handle ds
        hofA hsubA hosndA hserA hosltA hofltA hdsnotA
      cases recs with
      | nil => exact ⟨g1, g2, g3, g4, g5, g6⟩
      | cons e rest => exact ⟨g1, g2, g3, g4, g5, g6⟩

/-- `__next__` preserves the handle bookkeeping invariant. -/
theorem mfNext_handleInv (st : MFState) (hinv : HandleInv st) :
    HandleInv (mfNext st).1 := by
  unfold mfNext
  cases hpop : heappop NextEvent.ltb dfltNE st.events with
  | none => exact hinv
  | some p =>
    rcases p with ⟨ne, rest⟩
    simp only
    cases htab : st.events_tables ne.data_source with
    | cons e more =>
      exact ⟨hinv.ofnd, hinv.sub, hinv.osnd, hinv.serial_nd, hinv.os_lt, hinv.of_lt⟩
    | nil =>
      by_cases hac : st.all_chunks = true
      · rw [if_pos hac]
        have hinv2 : HandleInv { st with events := rest } :=
          ⟨hinv.ofnd, hinv.sub, hinv.osnd, hinv.serial_nd, hinv.os_lt, hinv.of_lt⟩
        have hload := load_next_chunk_handleInv { st with events := rest }
          ne.data_source hinv2
        rcases hl : load_next_chunk { st with events := rest } ne.data_source
          with ⟨sL, err⟩
        rw [hl] at hload
        cases err with
        | none => exact hload
        | some pe => cases pe <;> exact hload
      · rw [if_neg hac]
        exact ⟨hinv.ofnd, hinv.sub, hinv.osnd, hinv.serial_nd, hinv.os_lt, hinv.of_lt⟩

theorem closeSerials_sublist (l : List (Nat × Nat)) :
    ∀ os : List (Nat × Nat), List.Sublist (closeSerials l os) os := by
  induction l with
  | nil =>
    intro os
    exact List.Sublist.refl os
  | cons a t ih =>
    intro os
    show List.Sublist (closeSerials t (os.filter fun q => q.2 ≠ a.2)) os
    exact (ih _).trans (List.filter_sublist _)

/-- `close()` preserves the handle bookkeeping invariant. -/
theorem mfClose_handleInv (st : MFState) (hinv : HandleInv st) :
    HandleInv (mfClose st) := by
  have h := foldl_fileClose st.open_files st
  unfold mfClose
  rw [h]
  have hsub : List.Sublist (closeSerials st.open_files st.os_open) st.os_open :=
    closeSerials_sublist _ _
  refine ⟨hinv.ofnd, ?_, ?_, ?_, ?_, hinv.of_lt⟩
  · intro p hp
    exact hinv.sub p (hsub.subset hp)
  · exact List.Nodup.sublist (hsub.map Prod.fst) hinv.osnd
  · exact List.Nodup.sublist (hsub.map Prod.snd) hinv.serial_nd
  · intro p hp
    exact hinv.os_lt p (hsub.subset hp)

theorem foldl_initStep_handleInv : ∀ (l : List Nat) (acc : MFState × Option PyErr),
    HandleInv acc.1 → HandleInv ((l.foldl initStep acc).1) := by
  intro l
  induction l with
  | nil =>
    intro acc h
    exact h
  | cons ds t ih =>
    intro acc h
    rcases acc with ⟨st, err⟩
    simp only [List.foldl_cons]
    cases err with
    | none => exact ih _ (load_next_chunk_handleInv st ds h)
    | some e => exact ih _ h

/-- The constructor establishes the handle bookkeeping invariant. -/
theorem mfInit_handleInv (k : Nat) (chunks : Nat → Int → Option (List Rec))
    (ac : Bool) (fc : Int) : HandleInv (mfInit k chunks ac fc).1 := by
  have hinv0 : HandleInv
      { chunks := chunks, all_chunks := ac, current_chunk := fun _ => fc - 1,
        open_files := [], os_open := [], next_handle := 0,
        events_tables := fun _ => [], events := [] } :=
    ⟨List.nodup_nil, fun p hp => absurd hp (List.not_mem_nil p), List.nodup_nil,
      List.nodup_nil, fun p hp => absurd hp (List.not_mem_nil p),
      fun p hp => absurd hp (List.not_mem_nil p)⟩
  unfold mfInit
  by_cases hk : k = 0
  · rw [if_pos hk]
    exact hinv0
  · rw [if_neg hk]
    exact foldl_initStep_handleInv _ _ hinv0

/-- Every reachable `MultiFiles` state satisfies the handle bookkeeping
invariant. -/
theorem reach_handleInv : ∀ st : MFState, Reach st → HandleInv st := by
  intro st h
  induction h with
  | init k chunks ac fc => exact mfInit_handleInv k chunks ac fc
  | step h ih => exact mfNext_handleInv _ ih
  | close h ih => exact mfClose_handleInv _ ih

/-- C10, confirmed.  In every reachable state the OS-open handles are
pairwise distinct per data source — at most one open chunk file per source
— and every open handle is the one recorded for its source in
`_open_files`: on rollover `_load_next_chunk` closes and pops the previous
handle before opening the next chunk. -/
theorem C10_one_open_per_source (st : MFState) (h : Reach st) :
    (st.os_open.map Prod.fst).Nodup ∧
    ∀ p ∈ st.os_open, p ∈ st.open_files := by
  have hinv := reach_handleInv st h
  exact ⟨hinv.osnd, hinv.sub⟩

theorem C10_one_open_per_source_witness :
    (((mfInit 2 fsTwoSources true 0).1.os_open.map Prod.fst).Nodup ∧
      ∀ p ∈ (mfInit 2 fsTwoSources true 0).1.os_open,
        p ∈ (mfInit 2 fsTwoSources true 0).1.open_files) :=
  C10_one_open_per_source _ (Reach.init 2 fsTwoSources true 0)

/-- C8, confirmed.  For both supported naming conventions and each of the
repository's sample filenames — including names with the optional
`sb_id`/`obs_id` fields absent, names with a `data_type` segment, and names
with an extra suffix segment — rendering the parsed file info reproduces the
original filename exactly:
`get_file_name (get_file_info name c) c = some name`. -/
theorem C8_round_trip :
    (rel1Samples.all fun s => round_trip Convention.acada_rel1 s) = true
    ∧ (icdSamples.all fun s => round_trip Convention.acada_dpps_icd s) = true := by
  decide

end CtapipeZfits
